import Mathlib

/-!
Verification development for the music-madness-sync-bridge synchronization
engine.  The TypeScript sources are shallowly embedded as executable Lean
definitions:

* strings are Lean `String`s (JS strings; list-of-char operations are used
  throughout so that everything kernel-evaluates);
* machine integers and byte buffers are `Nat` / `List Nat` with explicit
  `% 2^w` truncation where overflow matters;
* ISO-8601 timestamps that the code compares via `new Date(x).getTime()`
  are modelled as epoch-millisecond integers (`Int`); rendering a timestamp
  into text (`toISOString`) is modelled by an injective rendering function;
* fallible calls (`fetch`, asset downloads) return `Except`;
* the SQLite state store is modelled as lists of rows with the insert /
  upsert / update semantics of the SQL statements in `src/state/store.ts`;
* Node's `crypto.createHash("sha256")` is embedded as a full executable
  SHA-256 implementation over UTF-8 bytes.
-/

/-! ## Byte-level and string-level utilities -/

/-- Truncate to 32 bits. -/
def m32 (n : Nat) : Nat := n % 4294967296

/-- Right rotation of a 32-bit word. -/
def rotr32 (x n : Nat) : Nat :=
  m32 ((x >>> n) ||| (x <<< (32 - n)))

/-- The SHA-256 round constants. -/
def shaK : List Nat :=
  [1116352408, 1899447441, 3049323471, 3921009573, 961987163, 1508970993,
   2453635748, 2870763221, 3624381080, 310598401, 607225278, 1426881987,
   1925078388, 2162078206, 2614888103, 3248222580, 3835390401, 4022224774,
   264347078, 604807628, 770255983, 1249150122, 1555081692, 1996064986,
   2554220882, 2821834349, 2952996808, 3210313671, 3336571891, 3584528711,
   113926993, 338241895, 666307205, 773529912, 1294757372, 1396182291,
   1695183700, 1986661051, 2177026350, 2456956037, 2730485921, 2820302411,
   3259730800, 3345764771, 3516065817, 3600352804, 4094571909, 275423344,
   430227734, 506948616, 659060556, 883997877, 958139571, 1322822218,
   1537002063, 1747873779, 1955562222, 2024104815, 2227730452, 2361852424,
   2428436474, 2756734187, 3204031479, 3329325298]

/-- The SHA-256 initial hash state. -/
def shaInitH : List Nat :=
  [1779033703, 3144134277, 1013904242, 2773480762,
   1359893119, 2600822924, 528734635, 1541459225]

/-- SHA-256 message padding of a byte list. -/
def shaPad (msg : List Nat) : List Nat :=
  let len := msg.length
  let bitLen := 8 * len
  let padZeros := (55 - len % 64 + 64) % 64
  msg ++ [0x80] ++ List.replicate padZeros 0 ++
    [(bitLen >>> 56) % 256, (bitLen >>> 48) % 256, (bitLen >>> 40) % 256, (bitLen >>> 32) % 256,
     (bitLen >>> 24) % 256, (bitLen >>> 16) % 256, (bitLen >>> 8) % 256, bitLen % 256]

/-- Group bytes into big-endian 32-bit words. -/
def bytesToWords : List Nat → List Nat
  | a :: b :: c :: d :: rest => (a <<< 24 ||| b <<< 16 ||| c <<< 8 ||| d) :: bytesToWords rest
  | _ => []

/-- SHA-256 sigma functions. -/
def smallSigma0 (x : Nat) : Nat := (rotr32 x 7) ^^^ (rotr32 x 18) ^^^ (x >>> 3)

/-- Lower sigma-1. -/
def smallSigma1 (x : Nat) : Nat := (rotr32 x 17) ^^^ (rotr32 x 19) ^^^ (x >>> 10)

/-- Upper sigma-0. -/
def bigSigma0 (x : Nat) : Nat := (rotr32 x 2) ^^^ (rotr32 x 13) ^^^ (rotr32 x 22)

/-- Upper sigma-1. -/
def bigSigma1 (x : Nat) : Nat := (rotr32 x 6) ^^^ (rotr32 x 11) ^^^ (rotr32 x 25)

/-- Extend the 16 message words to 64; `ws` is the reversed word list so far. -/
def shaExtend : Nat → List Nat → List Nat
  | 0, ws => ws
  | n + 1, ws =>
    let w15 := ws.getD 14 0
    let w2 := ws.getD 1 0
    let w16 := ws.getD 15 0
    let w7 := ws.getD 6 0
    let next := m32 (smallSigma1 w2 + w7 + smallSigma0 w15 + w16)
    shaExtend n (next :: ws)

/-- One SHA-256 compression round on the 8-word working state. -/
def shaCompressRound (k w : Nat) (st : List Nat) : List Nat :=
  match st with
  | [a, b, c, d, e, f, g, h] =>
    let ch := (e &&& f) ^^^ ((4294967295 ^^^ e) &&& g)
    let maj := (a &&& b) ^^^ (a &&& c) ^^^ (b &&& c)
    let t1 := m32 (h + bigSigma1 e + ch + k + w)
    let t2 := m32 (bigSigma0 a + maj)
    [m32 (t1 + t2), a, b, c, m32 (d + t1), e, f, g]
  | other => other

/-- Run the 64 compression rounds. -/
def shaCompress : List Nat → List Nat → List Nat → List Nat
  | [], _, st => st
  | _, [], st => st
  | k :: ks, w :: ws, st => shaCompress ks ws (shaCompressRound k w st)

/-- Process one 64-byte block. -/
def shaBlock (h : List Nat) (block : List Nat) : List Nat :=
  let w16 := bytesToWords block
  let ws := (shaExtend 48 w16.reverse).reverse
  let st := shaCompress shaK ws h
  (List.range 8).map (fun i => m32 (h.getD i 0 + st.getD i 0))

/-- Process all 64-byte blocks; fuel counts the remaining blocks. -/
def shaBlocksFuel : Nat → List Nat → List Nat → List Nat
  | 0, h, _ => h
  | n + 1, h, bytes => shaBlocksFuel n (shaBlock h (bytes.take 64)) (bytes.drop 64)

/-- Fold the compression function over a padded message. -/
def shaBlocks (h : List Nat) (bytes : List Nat) : List Nat :=
  shaBlocksFuel (bytes.length / 64) h bytes

/-- Lower-case hexadecimal digit for a value below 16. -/
def hexDigitChar (n : Nat) : Char :=
  if n < 10 then Char.ofNat (48 + n) else Char.ofNat (87 + n)

/-- Render one 32-bit word as 8 hex characters. -/
def wordToHex (w : Nat) : List Char :=
  [hexDigitChar ((w >>> 28) % 16), hexDigitChar ((w >>> 24) % 16),
   hexDigitChar ((w >>> 20) % 16), hexDigitChar ((w >>> 16) % 16),
   hexDigitChar ((w >>> 12) % 16), hexDigitChar ((w >>> 8) % 16),
   hexDigitChar ((w >>> 4) % 16), hexDigitChar (w % 16)]

/-- SHA-256 of a byte list, rendered as 64 lower-case hex characters.
Embeds Node `createHash("sha256").update(bytes).digest("hex")`. -/
def sha256Bytes (msg : List Nat) : String :=
  let h := shaBlocks shaInitH (shaPad msg)
  String.mk (h.flatMap wordToHex)

/-- UTF-8 encoding of one character. -/
def utf8EncodeChar (c : Char) : List Nat :=
  let n := c.toNat
  if n < 128 then [n]
  else if n < 2048 then [192 ||| (n >>> 6), 128 ||| (n &&& 63)]
  else if n < 65536 then [224 ||| (n >>> 12), 128 ||| ((n >>> 6) &&& 63), 128 ||| (n &&& 63)]
  else [240 ||| (n >>> 18), 128 ||| ((n >>> 12) &&& 63), 128 ||| ((n >>> 6) &&& 63), 128 ||| (n &&& 63)]

/-- UTF-8 bytes of a string. -/
def utf8Bytes (s : String) : List Nat := s.data.flatMap utf8EncodeChar

/-- The `sha256` helper of `src/utils/hash.ts` applied to a string. -/
def sha256 (s : String) : String := sha256Bytes (utf8Bytes s)

/-! ## JSON serialization as performed by `JSON.stringify`

`hashJournal` fingerprints a journal by hashing `JSON.stringify` of a
normalization object.  We embed exactly the strings `JSON.stringify`
produces for those object shapes (insertion-ordered keys, `undefined`
fields dropped, standard string escaping). -/

/-- Escape one character as inside a JSON string literal
(the escaping `JSON.stringify` performs). -/
def jsonEscapeChar (c : Char) : List Char :=
  if c = '"' then ['\\', '"']
  else if c = '\\' then ['\\', '\\']
  else if c = Char.ofNat 8 then ['\\', 'b']
  else if c = Char.ofNat 9 then ['\\', 't']
  else if c = Char.ofNat 10 then ['\\', 'n']
  else if c = Char.ofNat 12 then ['\\', 'f']
  else if c = Char.ofNat 13 then ['\\', 'r']
  else if c.toNat < 32 then
    ['\\', 'u', '0', '0', hexDigitChar (c.toNat / 16), hexDigitChar (c.toNat % 16)]
  else [c]

/-- Escape every character of a string body. -/
def jsonEscape (l : List Char) : List Char := l.flatMap jsonEscapeChar

/-- Characters of a JSON string literal: quote, escaped body, quote. -/
def jsonQuoteChars (s : String) : List Char := '"' :: (jsonEscape s.data ++ ['"'])

/-- A JSON string literal. -/
def jsonQuote (s : String) : String := String.mk (jsonQuoteChars s)

/-- Join strings with a separator (executable `Array.prototype.join`). -/
def joinSep (sep : String) : List String → String
  | [] => ""
  | [x] => x
  | x :: xs => x ++ sep ++ joinSep sep xs

/-- A JSON array of string literals. -/
def jsonStrArr (l : List String) : String :=
  "[" ++ joinSep "," (l.map jsonQuote) ++ "]"

/-- Left brace as a string. -/
def lbr : String := "\x7b"

/-- Right brace as a string. -/
def rbr : String := "\x7d"

/-! ## Parsers witnessing that the serialized forms are uniquely decodable

These are not part of the TypeScript program; they are verification
artifacts used to prove injectivity of the `JSON.stringify` embedding. -/

/-- Numeric value of a lower-case hex digit character. -/
def hexVal (c : Char) : Nat :=
  if 97 ≤ c.toNat then c.toNat - 87 else c.toNat - 48

/-- Invert the two-character escapes. -/
def unescapeChar (d : Char) : Char :=
  if d = 'b' then Char.ofNat 8
  else if d = 't' then Char.ofNat 9
  else if d = 'n' then Char.ofNat 10
  else if d = 'f' then Char.ofNat 12
  else if d = 'r' then Char.ofNat 13
  else d

/-- Parse a JSON string body up to and including the closing quote,
returning the decoded body and the remaining input. -/
def parseQStr : List Char → Option (List Char × List Char)
  | [] => none
  | c :: rest =>
    if c = '"' then some ([], rest)
    else if c = '\\' then
      match rest with
      | [] => none
      | d :: rest2 =>
        if d = 'u' then
          match rest2 with
          | _ :: _ :: hi :: lo :: rest3 =>
            match parseQStr rest3 with
            | some (s, r) => some (Char.ofNat (16 * hexVal hi + hexVal lo) :: s, r)
            | none => none
          | _ => none
        else
          match parseQStr rest2 with
          | some (s, r) => some (unescapeChar d :: s, r)
          | none => none
    else
      match parseQStr rest with
      | some (s, r) => some (c :: s, r)
      | none => none

/-- Parse one-or-more comma-separated JSON string literals followed by a
closing bracket; fuel bounds the number of items. -/
def parseQItems : Nat → List Char → Option (List (List Char) × List Char)
  | 0, _ => none
  | fuel + 1, l =>
    match l with
    | c :: rest =>
      if c = '"' then
        match parseQStr rest with
        | some (s, r) =>
          match r with
          | ']' :: r2 => some ([s], r2)
          | ',' :: r2 =>
            match parseQItems fuel r2 with
            | some (items, r3) => some (s :: items, r3)
            | none => none
          | _ => none
        | none => none
      else none
    | [] => none

/-- Parse a JSON array of string literals. -/
def parseQArr (l : List Char) : Option (List (List Char) × List Char) :=
  match l with
  | c :: rest =>
    if c = '[' then
      match rest with
      | d :: rest2 => if d = ']' then some ([], rest2) else parseQItems (rest.length + 1) rest
      | [] => none
    else none
  | [] => none

/-- Strip an expected literal from the front of the input. -/
def stripLit (lit : List Char) (l : List Char) : Option (List Char) :=
  if l.take lit.length = lit then some (l.drop lit.length) else none


/-! ## Data model (`src/types.ts`) -/

/-- Media reference attached to a journal (`FoundryMediaAsset`). -/
structure FoundryMediaAsset where
  assetId : Option String
  sourceUrl : String
  filename : Option String
  mimeType : Option String
  sizeBytes : Option Nat
deriving DecidableEq, Repr

/-- Journal summary returned by `listJournals`. -/
structure FoundryJournalSummary where
  id : String
  name : String
  folderId : Option String
  folderPath : Option (List String)
  createdAt : Option String
  updatedAt : Option String
deriving DecidableEq, Repr

/-- Full journal payload (`FoundryJournal`).  `updatedAt` is the source
document's own last-modified stamp and is only ever stored or hashed as
text, so it stays a string here. -/
structure FoundryJournal where
  id : String
  name : String
  folderId : Option String
  folderPath : Option (List String)
  createdAt : Option String
  updatedAt : Option String
  content : String
  aliases : Option (List String)
  media : Option (List FoundryMediaAsset)
deriving DecidableEq, Repr

/-- Folder row returned by `listFolders`. -/
structure FoundryFolder where
  id : String
  name : String
  parentId : Option String
deriving DecidableEq, Repr

/-- Sync mapping row (`SyncMap`).  `last_synced_at` is written as
`new Date().toISOString()` and read back through `new Date(x).getTime()`,
so it is modelled directly as the epoch-millisecond integer. -/
structure SyncMap where
  foundry_type : String
  foundry_id : String
  notion_page_id : String
  canonical_name : String
  last_sync_direction : String
  source_hash : String
  target_hash : String
  last_synced_at : Int
  notion_mirror_block_id : Option Nat
deriving DecidableEq, Repr

/-- Conflict status values. -/
inductive ConflictStatus where
  | open
  | resolved
  | ignored
deriving DecidableEq, Repr

/-- The two status values `updateConflictResolution` accepts
(the TypeScript parameter type is the union `"resolved" | "ignored"`). -/
inductive ResolutionStatus where
  | resolved
  | ignored
deriving DecidableEq, Repr

/-- Inclusion of a resolution status into a conflict status. -/
def ResolutionStatus.toStatus : ResolutionStatus → ConflictStatus
  | .resolved => .resolved
  | .ignored => .ignored

/-- Conflict row (`SyncConflict`).  The two `*_changed_at` stamps are only
stored and sorted as text, so they stay strings. -/
structure SyncConflict where
  conflict_id : String
  foundry_id : String
  notion_page_id : String
  source_changed_at : String
  target_changed_at : String
  source_hash : String
  target_hash : String
  status : ConflictStatus
  operator_notes : Option String
deriving DecidableEq, Repr

/-- Media record row (`MediaMap`). -/
structure MediaMap where
  foundry_asset_id : String
  source_url : String
  stored_url_or_notion_file_id : String
  checksum : String
  size_bytes : Nat
  last_validated_at : Int
deriving DecidableEq, Repr

/-- Run bookkeeping row (`sync_runs` table). -/
structure SyncRun where
  run_id : String
  started_at : Int
  ended_at : Option Int
  status : String
  mode : String
  summary_json : Option String
deriving DecidableEq, Repr

/-- Per-item preview action (`JournalPreviewItem.action`). -/
inductive SyncAction where
  | create
  | update
  | skip
  | conflict
deriving DecidableEq, Repr

/-- Preview result item (`JournalPreviewItem`). -/
structure JournalPreviewItem where
  journalId : String
  title : String
  notionPageId : Option String
  action : SyncAction
  reason : Option String
  sourceHash : String
deriving DecidableEq, Repr

/-- Result of one media copy (`MediaCopyResult`). -/
structure MediaCopyResult where
  foundryAssetId : String
  sourceUrl : String
  storedPath : String
  storedReference : String
  checksum : String
  sizeBytes : Nat
deriving DecidableEq, Repr

/-- Rendering of a timestamp into the text that `toISOString` would
produce.  ISO-8601 rendering of distinct epoch-millisecond values is
injective and order-preserving, which is all the code relies on, so the
decimal rendering stands in for it. -/
def isoString (t : Int) : String := toString t

/-- Fresh identifier for `newId(pre)` of `src/utils/hash.ts`:
the prefix joined to a `randomUUID()` value supplied by the caller. -/
def newId (pre : String) (uuid : String) : String := pre ++ "_" ++ uuid

/-! ## The content hasher (`hashJournal`)

Two variants exist in the repository: the one in `src/sync/service.ts`
does not include the folder path in the hashed basis, while the variant
in the unnamed source file `part_004` adds `folderPath`. -/

/-- Serialized reduction of one media reference, as `JSON.stringify`
renders `(assetId, sourceUrl, filename, mimeType)` with `undefined`
fields dropped. -/
def mediaBasis (m : FoundryMediaAsset) : String :=
  let fields :=
    (match m.assetId with
     | some a => [jsonQuote "assetId" ++ ":" ++ jsonQuote a]
     | none => []) ++
    [jsonQuote "sourceUrl" ++ ":" ++ jsonQuote m.sourceUrl] ++
    (match m.filename with
     | some f => [jsonQuote "filename" ++ ":" ++ jsonQuote f]
     | none => []) ++
    (match m.mimeType with
     | some mt => [jsonQuote "mimeType" ++ ":" ++ jsonQuote mt]
     | none => [])
  lbr ++ joinSep "," fields ++ rbr

/-- Serialized media array of a journal. -/
def mediaArrBasis (j : FoundryJournal) : String :=
  "[" ++ joinSep "," ((j.media.getD []).map mediaBasis) ++ "]"

/-- Hash basis of the `hashJournal` in `src/sync/service.ts`:
`JSON.stringify` of id, name, aliases, updatedAt, content and the reduced
media list (no folder path). -/
def hashBasisLegacy (j : FoundryJournal) : String :=
  lbr ++ jsonQuote "id" ++ ":" ++ jsonQuote j.id ++
  "," ++ jsonQuote "name" ++ ":" ++ jsonQuote j.name ++
  "," ++ jsonQuote "aliases" ++ ":" ++ jsonStrArr (j.aliases.getD []) ++
  (match j.updatedAt with
   | some u => "," ++ jsonQuote "updatedAt" ++ ":" ++ jsonQuote u
   | none => "") ++
  "," ++ jsonQuote "content" ++ ":" ++ jsonQuote j.content ++
  "," ++ jsonQuote "media" ++ ":" ++ mediaArrBasis j ++ rbr

/-- Hash basis of the `hashJournal` in the folder-aware service variant
(`part_004`): identical except that `folderPath` is serialized between
`aliases` and `updatedAt`. -/
def hashBasis (j : FoundryJournal) : String :=
  lbr ++ jsonQuote "id" ++ ":" ++ jsonQuote j.id ++
  "," ++ jsonQuote "name" ++ ":" ++ jsonQuote j.name ++
  "," ++ jsonQuote "aliases" ++ ":" ++ jsonStrArr (j.aliases.getD []) ++
  "," ++ jsonQuote "folderPath" ++ ":" ++ jsonStrArr (j.folderPath.getD []) ++
  (match j.updatedAt with
   | some u => "," ++ jsonQuote "updatedAt" ++ ":" ++ jsonQuote u
   | none => "") ++
  "," ++ jsonQuote "content" ++ ":" ++ jsonQuote j.content ++
  "," ++ jsonQuote "media" ++ ":" ++ mediaArrBasis j ++ rbr

/-- Fingerprint of `src/sync/service.ts`'s `hashJournal`. -/
def hashJournalLegacy (j : FoundryJournal) : String := sha256 (hashBasisLegacy j)

/-- Fingerprint of the folder-aware `hashJournal` (`part_004`). -/
def hashJournal (j : FoundryJournal) : String := sha256 (hashBasis j)

/-- A SHA-256 collision between two distinct inputs. -/
def Sha256Collision (a b : String) : Prop := a ≠ b ∧ sha256 a = sha256 b

/-! ## Conflict detection and the preview decision -/

/-- The `detectConflict` method: no conflict when the stored source hash
still matches; otherwise conflict iff the destination page was edited
strictly after the last successful sync. -/
def detectConflict (map : SyncMap) (newSourceHash : String) (editedAt : Int) : Bool :=
  if map.source_hash == newSourceHash then false
  else decide (editedAt > map.last_synced_at)

/-- Per-journal preview decision of the folder-aware service: given the
mapping lookup, the destination match and the page's last-edited time,
the action pushed for the item. -/
def previewAction (map : Option SyncMap) (notionPageId : Option String)
    (sourceHash : String) (editedAt : Int) : SyncAction :=
  match map, notionPageId with
  | some m, some _ =>
    if detectConflict m sourceHash editedAt then SyncAction.conflict
    else SyncAction.update
  | _, some _ => SyncAction.update
  | _, none => SyncAction.create

/-- Per-journal preview decision of `src/sync/service.ts`, which first
skips when there is no destination match and no configured default
target database. -/
def previewActionLegacy (hasDefaultTargetDb : Bool) (map : Option SyncMap)
    (notionPageId : Option String) (sourceHash : String) (editedAt : Int) : SyncAction :=
  match notionPageId with
  | none => if hasDefaultTargetDb then SyncAction.create else SyncAction.skip
  | some _ =>
    match map with
    | some m =>
      if detectConflict m sourceHash editedAt then SyncAction.conflict else SyncAction.update
    | none => SyncAction.update

/-! ## Small executable string helpers

The Lean core `String` functions work on byte positions and do not reduce
in the kernel, so the operations the TypeScript uses are re-implemented
over character lists. -/

/-- Decimal digits of a natural number; the fuel argument dominates the
number of digits so the definition reduces in the kernel. -/
def natToCharsAux : Nat → Nat → List Char
  | 0, _ => []
  | fuel + 1, n =>
    if n < 10 then [hexDigitChar n]
    else natToCharsAux fuel (n / 10) ++ [hexDigitChar (n % 10)]

/-- Decimal rendering of a natural number. -/
def natToString (n : Nat) : String := String.mk (natToCharsAux (n + 1) n)

/-- Decimal rendering of an integer. -/
def intToString (t : Int) : String :=
  if t < 0 then "-" ++ natToString t.natAbs else natToString t.natAbs

/-- Split a character list on a separator character, like
`String.prototype.split` with a single-character separator. -/
def splitOnChar (c : Char) : List Char → List (List Char)
  | [] => [[]]
  | a :: t =>
    let r := splitOnChar c t
    if a = c then [] :: r
    else
      match r with
      | [] => [[a]]
      | h :: t2 => (a :: h) :: t2

/-- Lower-case an ASCII letter (`String.prototype.toLowerCase` restricted
to the ASCII range used by MIME types and filename extensions). -/
def asciiLower (c : Char) : Char :=
  if 65 ≤ c.toNat ∧ c.toNat ≤ 90 then Char.ofNat (c.toNat + 32) else c

/-- Lower-case a string. -/
def lowerStr (s : String) : String := String.mk (s.data.map asciiLower)

/-- Substring containment check (`String.prototype.includes`). -/
def containsSeq (pat : List Char) : List Char → Bool
  | [] => pat.isEmpty
  | c :: t => pat.isPrefixOf (c :: t) || containsSeq pat t

/-- Test `String.prototype.includes` on strings. -/
def strIncludes (s pat : String) : Bool := containsSeq pat.data s.data

/-! ## `src/utils/media.ts` -/

/-- The `extensionFromMimeOrName` helper: the filename's extension wins
when a filename with a dot is present, then the declared MIME type is
probed by substring, and otherwise the result is `bin`.  Empty strings
are falsy in the TypeScript conditions. -/
def extensionFromMimeOrName (mimeType : Option String) (filename : Option String) : String :=
  match filename with
  | some f =>
    if f ≠ "" ∧ (f.data.contains '.') then
      lowerStr (String.mk ((splitOnChar '.' f.data).getLastD []))
    else extensionFromMime mimeType
  | none => extensionFromMime mimeType
where
  /-- MIME-type probe of `extensionFromMimeOrName` (its tail after the
  filename check). -/
  extensionFromMime : Option String → String
  | none => "bin"
  | some mt =>
    if mt = "" then "bin"
    else
      let mime := lowerStr mt
      if strIncludes mime "png" then "png"
      else if strIncludes mime "jpeg" || strIncludes mime "jpg" then "jpg"
      else if strIncludes mime "webp" then "webp"
      else if strIncludes mime "gif" then "gif"
      else if strIncludes mime "svg" then "svg"
      else if strIncludes mime "pdf" then "pdf"
      else "bin"

/-- The precedence the specification describes for the storage extension
(MIME type first, filename extension second, generic binary default);
stated from the spec's words to compare against the implementation. -/
def extensionSpecMimeFirst (mimeType : Option String) (filename : Option String) : String :=
  let fromMime :=
    match mimeType with
    | none => none
    | some mt =>
      if mt = "" then none
      else
        let mime := lowerStr mt
        if strIncludes mime "png" then some "png"
        else if strIncludes mime "jpeg" || strIncludes mime "jpg" then some "jpg"
        else if strIncludes mime "webp" then some "webp"
        else if strIncludes mime "gif" then some "gif"
        else if strIncludes mime "svg" then some "svg"
        else if strIncludes mime "pdf" then some "pdf"
        else none
  match fromMime with
  | some e => e
  | none =>
    match filename with
    | some f =>
      if f ≠ "" ∧ f.data.contains '.' then
        lowerStr (String.mk ((splitOnChar '.' f.data).getLastD []))
      else "bin"
    | none => "bin"

/-- The `filenameFromUrl` helper: drop the query string and take the last
path segment (`path.basename` on a URL without a trailing slash). -/
def filenameFromUrl (url : String) : String :=
  let clean := (splitOnChar '?' url.data).headD []
  String.mk ((splitOnChar '/' clean).getLastD clean)

/-! ## `htmlToReadableText` (`part_004`)

The six sequential regex replacements and the whitespace normalization
are embedded as fueled scanners over character lists (fuel is the input
length, which each step consumes at least one character of). -/

/-- JS `\s` on the ASCII range (space, tab, newline, vertical tab, form
feed, carriage return). -/
def isJsSpace (c : Char) : Bool :=
  c = ' ' || c = Char.ofNat 9 || c = Char.ofNat 10 || c = Char.ofNat 11 ||
  c = Char.ofNat 12 || c = Char.ofNat 13

/-- Drop leading whitespace. -/
def skipWs (l : List Char) : List Char := l.dropWhile isJsSpace

/-- Case-insensitive literal match; returns the rest on success. -/
def matchCI : List Char → List Char → Option (List Char)
  | [], l => some l
  | _ :: _, [] => none
  | p :: ps, c :: cs => if asciiLower c = asciiLower p then matchCI ps cs else none

/-- Match the tail of `<\s*br\s*\/?>` after the opening angle bracket. -/
def matchBrTail (l : List Char) : Option (List Char) :=
  match matchCI ['b', 'r'] (skipWs l) with
  | none => none
  | some l2 =>
    match skipWs l2 with
    | '/' :: '>' :: r => some r
    | '>' :: r => some r
    | _ => none

/-- Match the tail of a closing tag `<\/\s*NAME\s*>` after the opening
angle bracket, for a fixed name. -/
def matchCloseTail (name : List Char) (l : List Char) : Option (List Char) :=
  match l with
  | '/' :: l1 =>
    match matchCI name (skipWs l1) with
    | none => none
    | some l2 =>
      match skipWs l2 with
      | '>' :: r => some r
      | _ => none
  | _ => none

/-- Match the tail of `<\/\s*h[1-6]\s*>` after the opening angle bracket. -/
def matchCloseHeadingTail (l : List Char) : Option (List Char) :=
  match l with
  | '/' :: l1 =>
    match matchCI ['h'] (skipWs l1) with
    | none => none
    | some l2 =>
      match l2 with
      | d :: l3 =>
        if 49 ≤ d.toNat ∧ d.toNat ≤ 54 then
          match skipWs l3 with
          | '>' :: r => some r
          | _ => none
        else none
      | [] => none
  | _ => none

/-- Match the tail of `<\s*li[^>]*>` after the opening angle bracket. -/
def matchLiOpenTail (l : List Char) : Option (List Char) :=
  match matchCI ['l', 'i'] (skipWs l) with
  | none => none
  | some l2 =>
    match splitOnChar '>' l2 with
    | _ :: [] => none
    | seg :: _ => some (l2.drop (seg.length + 1))
    | [] => none

/-- One global regex replacement pass: at each `<` try the matcher and
substitute the replacement; otherwise copy the character. -/
def replacePass (matcher : List Char → Option (List Char)) (repl : List Char) :
    Nat → List Char → List Char
  | 0, l => l
  | _ + 1, [] => []
  | fuel + 1, c :: rest =>
    if c = '<' then
      match matcher rest with
      | some r => repl ++ replacePass matcher repl fuel r
      | none => c :: replacePass matcher repl fuel rest
    else c :: replacePass matcher repl fuel rest

/-- Strip every remaining `<[^>]*>` tag, replacing it by a space. -/
def stripTags : Nat → List Char → List Char
  | 0, l => l
  | _ + 1, [] => []
  | fuel + 1, c :: rest =>
    if c = '<' then
      match splitOnChar '>' rest with
      | _ :: [] => c :: stripTags fuel rest
      | seg :: _ => ' ' :: stripTags fuel (rest.drop (seg.length + 1))
      | [] => c :: stripTags fuel rest
    else c :: stripTags fuel rest

/-- Collapse every run of spaces and tabs to a single space
(`replace(/[ \t]+/g, " ")`); the flag records being inside a run. -/
def collapseSpaceTabAux : Bool → List Char → List Char
  | _, [] => []
  | inRun, c :: rest =>
    if c = ' ' || c = Char.ofNat 9 then
      if inRun then collapseSpaceTabAux true rest
      else ' ' :: collapseSpaceTabAux true rest
    else c :: collapseSpaceTabAux false rest

/-- Entry point of the space/tab collapse. -/
def collapseSpaceTab (l : List Char) : List Char := collapseSpaceTabAux false l

/-- JS `String.prototype.trim`. -/
def trimChars (l : List Char) : List Char :=
  ((l.dropWhile isJsSpace).reverse.dropWhile isJsSpace).reverse

/-- Collapse every run of three or more newlines to exactly two
(`replace(/\n\x7b3,\x7d/g, "\n\n")`); the counter records how many
newlines of the current run were already seen. -/
def collapseNewlinesAux : Nat → List Char → List Char
  | _, [] => []
  | seen, c :: rest =>
    if c = Char.ofNat 10 then
      if seen < 2 then Char.ofNat 10 :: collapseNewlinesAux (seen + 1) rest
      else collapseNewlinesAux (seen + 1) rest
    else c :: collapseNewlinesAux 0 rest

/-- Entry point of the newline collapse. -/
def collapseNewlines (l : List Char) : List Char := collapseNewlinesAux 0 l

/-- The `htmlToReadableText` normalizer of `part_004`: block-level tags
become line breaks, list items become dashes, remaining tags are
stripped, whitespace is normalized, and an empty result becomes the
`(No content)` placeholder. -/
def htmlToReadableText (html : String) : String :=
  if trimChars html.data = [] then "(No content)"
  else
    let l0 := html.data
    let l1 := replacePass matchBrTail [Char.ofNat 10] l0.length l0
    let l2 := replacePass (matchCloseTail ['p']) [Char.ofNat 10, Char.ofNat 10] l1.length l1
    let l3 := replacePass (matchCloseTail ['d', 'i', 'v']) [Char.ofNat 10] l2.length l2
    let l4 := replacePass matchCloseHeadingTail [Char.ofNat 10, Char.ofNat 10] l3.length l3
    let l5 := replacePass (matchCloseTail ['l', 'i']) [Char.ofNat 10] l4.length l4
    let l6 := replacePass matchLiOpenTail ['-', ' '] l5.length l5
    let l7 := stripTags l6.length l6
    let noCr := l7.filter (fun c => c ≠ Char.ofNat 13)
    let lines := (splitOnChar (Char.ofNat 10) noCr).map
      (fun line => trimChars (collapseSpaceTab line))
    let joined := joinSepChars [Char.ofNat 10] lines
    let normalized := trimChars (collapseNewlines joined)
    if normalized = [] then "(No content)" else String.mk normalized
where
  /-- Join character lists with a separator list. -/
  joinSepChars (sep : List Char) : List (List Char) → List Char
  | [] => []
  | [x] => x
  | x :: xs => x ++ sep ++ joinSepChars sep xs

/-! ## The state store (`src/state/store.ts`)

The SQLite tables are lists of rows; the SQL statements' semantics
(primary-key upsert, insert-or-replace, predicate update with
`getRowsModified`) are written out directly. -/

/-- The four relations of `bridge.sqlite`. -/
structure StateStore where
  syncMaps : List SyncMap
  conflicts : List SyncConflict
  mediaMaps : List MediaMap
  runs : List SyncRun
deriving DecidableEq, Repr

/-- Lookup of `sync_map` by primary key (`getSyncMap`). -/
def getSyncMap (s : StateStore) (foundryId : String) : Option SyncMap :=
  s.syncMaps.find? (fun m => m.foundry_id == foundryId)

/-- Insert-or-update of `sync_map` keyed by `foundry_id`
(`upsertSyncMap`, `INSERT ... ON CONFLICT(foundry_id) DO UPDATE`). -/
def upsertSyncMap (s : StateStore) (m : SyncMap) : StateStore :=
  if s.syncMaps.any (fun x => x.foundry_id == m.foundry_id) then
    { s with syncMaps := s.syncMaps.map (fun x => if x.foundry_id == m.foundry_id then m else x) }
  else
    { s with syncMaps := s.syncMaps ++ [m] }

/-- The `insertConflict` statement (`INSERT OR REPLACE` keyed by
`conflict_id`: a row with the same key is replaced, others untouched). -/
def insertConflict (s : StateStore) (c : SyncConflict) : StateStore :=
  { s with conflicts :=
      s.conflicts.filter (fun x => ¬ x.conflict_id == c.conflict_id) ++ [c] }

/-- Status filter argument of `listConflicts`. -/
inductive ConflictFilter where
  | only (status : ConflictStatus)
  | all
deriving DecidableEq, Repr

/-- The `listConflicts` query: filter by status (or none) and order by
`source_changed_at` descending. -/
def listConflicts (s : StateStore) (filter : ConflictFilter) : List SyncConflict :=
  let rows :=
    match filter with
    | .all => s.conflicts
    | .only st => s.conflicts.filter (fun c => c.status == st)
  rows.mergeSort (fun a b => ¬ a.source_changed_at < b.source_changed_at)

/-- The `updateConflictResolution` statement: update status and notes of
the row with the given id; the returned flag is `getRowsModified() > 0`,
i.e. whether some row matched. -/
def updateConflictResolution (s : StateStore) (conflictId : String)
    (status : ResolutionStatus) (notes : String) : StateStore × Bool :=
  let changed := s.conflicts.any (fun c => c.conflict_id == conflictId)
  ({ s with conflicts := s.conflicts.map (fun c =>
      if c.conflict_id == conflictId then
        { c with status := status.toStatus, operator_notes := some notes }
      else c) },
   changed)

/-- Insert-or-update of `media_map` keyed by `foundry_asset_id`. -/
def upsertMediaMap (s : StateStore) (r : MediaMap) : StateStore :=
  if s.mediaMaps.any (fun x => x.foundry_asset_id == r.foundry_asset_id) then
    { s with mediaMaps := s.mediaMaps.map (fun x =>
        if x.foundry_asset_id == r.foundry_asset_id then r else x) }
  else
    { s with mediaMaps := s.mediaMaps ++ [r] }

/-- The `startRun` insert. -/
def startRun (s : StateStore) (runId : String) (mode : String) (startedAt : Int) : StateStore :=
  { s with runs := s.runs ++
      [{ run_id := runId, started_at := startedAt, ended_at := none,
         status := "running", mode := mode, summary_json := none }] }

/-- The `finishRun` update. -/
def finishRun (s : StateStore) (runId : String) (status : String)
    (endedAt : Int) (summaryJson : String) : StateStore :=
  { s with runs := s.runs.map (fun r =>
      if r.run_id == runId then
        { r with ended_at := some endedAt, status := status, summary_json := some summaryJson }
      else r) }

/-! ## The destination adapter (`src/notion/adapter.ts`)

Only the mutable page structure matters for the engine's guarantees: a
page holds an ordered block list; a block is the `Foundry Mirror`
heading, a generated-region container (the callout created by
`upsertFoundryMirror`, carrying its appended children), or operator
content.  Newly created blocks receive identifiers from an allocation
counter, reflecting that the API returns a fresh id for every created
block. -/

/-- Mirror payload assembled by `buildMirrorPayload`. -/
structure MirrorPayload where
  metadataLines : List String
  contentText : String
  media : List MediaCopyResult
  includeMedia : Bool
deriving DecidableEq, Repr

/-- Destination page block. -/
inductive NBlock where
  | heading (text : String)
  | mirror (stamp : String) (payload : MirrorPayload)
  | operatorContent
deriving DecidableEq, Repr

/-- Is this block a generated-region container? -/
def NBlock.isMirror : NBlock → Bool
  | .mirror _ _ => true
  | _ => false

/-- A destination page: identifier and ordered blocks (block id, block). -/
structure NotionPage where
  pageId : String
  blocks : List (Nat × NBlock)
deriving DecidableEq, Repr

/-- Destination workspace state. -/
structure NotionState where
  pages : List NotionPage
  nextBlockId : Nat
deriving DecidableEq, Repr

/-- Blocks of a page by id. -/
def pageBlocks (ns : NotionState) (pageId : String) : List (Nat × NBlock) :=
  match ns.pages.find? (fun p => p.pageId == pageId) with
  | some p => p.blocks
  | none => []

/-- Replace the blocks of a page. -/
def setPageBlocks (ns : NotionState) (pageId : String) (blocks : List (Nat × NBlock)) : NotionState :=
  { ns with pages := ns.pages.map (fun p =>
      if p.pageId == pageId then { p with blocks := blocks } else p) }

/-- The `blocks.delete` call of `upsertFoundryMirror` (best-effort: a
missing id is ignored). -/
def deleteBlock (ns : NotionState) (blockId : Nat) : NotionState :=
  { ns with pages := ns.pages.map (fun p =>
      { p with blocks := p.blocks.filter (fun b => ¬ b.1 == blockId) }) }

/-- Trimmed block text equals `Foundry Mirror`? -/
def isMirrorHeading : NBlock → Bool
  | .heading t => String.mk (trimChars t.data) == "Foundry Mirror"
  | _ => false

/-- The `upsertFoundryMirror` method: delete the previous generated
container (best-effort), ensure the `Foundry Mirror` heading exists
(checking the first 100 children, as the code lists one page of 100),
then append a fresh callout container holding the generated blocks.
Returns the new state and the new container's id (`mirrorBlockId`). -/
def upsertFoundryMirror (ns : NotionState) (pageId : String) (payload : MirrorPayload)
    (previousMirrorBlockId : Option Nat) (now : Int) : NotionState × Nat :=
  let ns1 :=
    match previousMirrorBlockId with
    | some pid => deleteBlock ns pid
    | none => ns
  let children := pageBlocks ns1 pageId
  let hasHeading := (children.take 100).any (fun b => isMirrorHeading b.2)
  let (ns2, nextId) :=
    if hasHeading then (ns1, ns1.nextBlockId)
    else
      (setPageBlocks { ns1 with nextBlockId := ns1.nextBlockId + 1 } pageId
        (pageBlocks ns1 pageId ++ [(ns1.nextBlockId, NBlock.heading "Foundry Mirror")]),
       ns1.nextBlockId + 1)
  let containerId := nextId
  let stamp := "Foundry Mirror (auto) - " ++ isoString now
  let ns3 := setPageBlocks { ns2 with nextBlockId := nextId + 1 } pageId
    (pageBlocks ns2 pageId ++ [(containerId, NBlock.mirror stamp payload)])
  (ns3, containerId)

/-! ## The media pipeline (`src/media/pipeline.ts`) and asset download
(`FoundryClient.downloadAsset`) -/

/-- Result of one raw fetch: bytes, `content-type` header, final URL. -/
structure FetchResult where
  bytes : List Nat
  mimeType : Option String
  finalUrl : String
deriving DecidableEq, Repr

/-- Raw HTTP behaviour of the environment: URL to response or error. -/
def FetchEnv : Type := String → Except String FetchResult

/-- Try the candidate URLs of `downloadAsset` in order. -/
def tryCandidates (fetch : FetchEnv) : List String → String → Except String FetchResult
  | [], lastErr => Except.error ("Failed to download asset. Last error: " ++ lastErr)
  | c :: cs, _lastError =>
    match fetch c with
    | Except.ok r => Except.ok r
    | Except.error e => tryCandidates fetch cs e

/-- The `downloadAsset` method of `FoundryClient`: try the asset-id
route, then the source URL; the response's content type falls back to
the declared MIME type; all candidates failing raises the last error. -/
def downloadAsset (fetch : FetchEnv) (asset : FoundryMediaAsset) : Except String FetchResult :=
  let candidates :=
    (match asset.assetId with
     | some a => if a = "" then [] else ["/assets/" ++ a]
     | none => []) ++
    (if asset.sourceUrl = "" then [] else [asset.sourceUrl])
  match tryCandidates fetch candidates "undefined" with
  | Except.ok r => Except.ok { r with mimeType := r.mimeType <|> asset.mimeType }
  | Except.error e => Except.error e

/-- Configuration slice the media pipeline reads. -/
structure MediaCfg where
  mediaDir : String
  mediaPublicBaseUrl : Option String
deriving DecidableEq, Repr

/-- Mutable world state shared by the engine: the state store, the
destination workspace, the audit log and the media directory contents
(absolute path to byte content). -/
structure World where
  store : StateStore
  notion : NotionState
  audit : List String
  mediaFiles : List (String × List Nat)
deriving DecidableEq, Repr

/-- The `copyAll` loop of `MediaPipeline`: skip entries without a usable
locator, download, checksum the bytes, derive `checksum.ext`, write the
file only if absent, upsert the media record, collect the result; a
download error propagates immediately (no per-item catch), leaving the
mutations already made in place. -/
def copyAll (fetch : FetchEnv) (cfg : MediaCfg) (now : Int) :
    List FoundryMediaAsset → World → Except String (List MediaCopyResult) × World
  | [], w => (Except.ok [], w)
  | asset :: rest, w =>
    if (asset.sourceUrl == "") && (match asset.assetId with | none => true | some a => a == "") then
      copyAll fetch cfg now rest w
    else
      match downloadAsset fetch asset with
      | Except.error e => (Except.error e, w)
      | Except.ok dl =>
        let checksum := sha256Bytes dl.bytes
        let ext := extensionFromMimeOrName (asset.mimeType <|> dl.mimeType)
          (asset.filename <|> some (filenameFromUrl asset.sourceUrl))
        let filename := checksum ++ "." ++ ext
        let absolutePath := cfg.mediaDir ++ "/" ++ filename
        let w1 :=
          if w.mediaFiles.any (fun f => f.1 == absolutePath) then w
          else { w with mediaFiles := w.mediaFiles ++ [(absolutePath, dl.bytes)] }
        let storedReference :=
          match cfg.mediaPublicBaseUrl with
          | some b => if b = "" then absolutePath else b ++ "/media/" ++ filename
          | none => absolutePath
        let foundryAssetId := asset.assetId.getD checksum
        let row : MediaMap :=
          { foundry_asset_id := foundryAssetId, source_url := asset.sourceUrl,
            stored_url_or_notion_file_id := storedReference, checksum := checksum,
            size_bytes := dl.bytes.length, last_validated_at := now }
        let w2 := { w1 with store := upsertMediaMap w1.store row }
        let result : MediaCopyResult :=
          { foundryAssetId := foundryAssetId, sourceUrl := asset.sourceUrl,
            storedPath := absolutePath, storedReference := storedReference,
            checksum := checksum, sizeBytes := dl.bytes.length }
        match copyAll fetch cfg now rest w2 with
        | (Except.ok results, w3) => (Except.ok (result :: results), w3)
        | (Except.error e, w3) => (Except.error e, w3)

/-! ## Mirror payload (`buildMirrorPayload`, `part_004`) -/

/-- The metadata block plus normalized body text of the generated
region; `now` is the wall clock read by `new Date()` during the run. -/
def buildMirrorPayload (j : FoundryJournal) (media : List MediaCopyResult)
    (includeMedia : Bool) (now : Int) : MirrorPayload :=
  { metadataLines :=
      [ "Canonical Name: " ++ j.name,
        "Foundry Journal ID: " ++ j.id,
        "Last Synced: " ++ isoString now,
        "Foundry Updated At: " ++ j.updatedAt.getD "unknown",
        "Foundry Folder Path: " ++
          (let p := joinSep " / " (j.folderPath.getD []); if p = "" then "(none)" else p),
        "Aliases: " ++
          (let a := joinSep "; " (j.aliases.getD []); if a = "" then "(none)" else a),
        "Type: Foundry Journal Mirror",
        "Current Status: Active",
        "Related Arcs: ",
        "Related Entities: ",
        "Related Locations: ",
        "Continuity Notes: Auto-generated mirror content. Non-destructive update." ],
    contentText := htmlToReadableText j.content,
    media := media,
    includeMedia := includeMedia }

/-- Serialization of one `MediaCopyResult` as `JSON.stringify` renders
the object literal built in `copyAll` (keys in creation order). -/
def mediaCopyResultJson (m : MediaCopyResult) : String :=
  lbr ++ jsonQuote "foundryAssetId" ++ ":" ++ jsonQuote m.foundryAssetId ++
  "," ++ jsonQuote "sourceUrl" ++ ":" ++ jsonQuote m.sourceUrl ++
  "," ++ jsonQuote "storedPath" ++ ":" ++ jsonQuote m.storedPath ++
  "," ++ jsonQuote "storedReference" ++ ":" ++ jsonQuote m.storedReference ++
  "," ++ jsonQuote "checksum" ++ ":" ++ jsonQuote m.checksum ++
  "," ++ jsonQuote "sizeBytes" ++ ":" ++ natToString m.sizeBytes ++ rbr

/-- The string `JSON.stringify(mirrorPayload)` that `apply` hashes into
the target fingerprint. -/
def mirrorPayloadJson (p : MirrorPayload) : String :=
  lbr ++ jsonQuote "metadataLines" ++ ":" ++ jsonStrArr p.metadataLines ++
  "," ++ jsonQuote "contentText" ++ ":" ++ jsonQuote p.contentText ++
  "," ++ jsonQuote "media" ++ ":" ++
    "[" ++ joinSep "," (p.media.map mediaCopyResultJson) ++ "]" ++
  "," ++ jsonQuote "includeMedia" ++ ":" ++ (if p.includeMedia then "true" else "false") ++ rbr

/-! ## Loading journals (`loadJournals`, `part_004`) -/

/-- Read-only behaviour of the Foundry side: the summaries returned for
a requested limit, the journal payloads, and the folder listing
(`none` models the route failing on an older module, which the code
catches and treats as an empty folder map). -/
structure FoundryEnv where
  listJournals : Nat → List FoundryJournalSummary
  getJournal : String → FoundryJournal
  listFolders : Option (List FoundryFolder)

/-- Read-only behaviour of the destination side used by preview: match
lookup by canonical name / aliases under a folder path, and the page's
last-edited time. -/
structure NotionEnv where
  findPage : String → List String → List String → Option String
  pageLastEdited : String → Int

/-- The `resolveFolderPath` walk: follow `parentId` links upward,
collecting names root-first, stopping on a missing folder or a repeated
id; an empty path becomes `undefined`.  Fuel bounds the walk (the seen
set bounds it in the code). -/
def resolveFolderPathGo (folders : List FoundryFolder) :
    Nat → String → List String → List String → List String
  | 0, _, _, pathAcc => pathAcc
  | fuel + 1, currentId, seen, pathAcc =>
    if seen.contains currentId then pathAcc
    else
      match folders.find? (fun f => f.id == currentId) with
      | none => pathAcc
      | some f =>
        match f.parentId with
        | none => f.name :: pathAcc
        | some p => resolveFolderPathGo folders fuel p (currentId :: seen) (f.name :: pathAcc)

/-- Entry point of `resolveFolderPath`. -/
def resolveFolderPath (folderId : Option String) (folders : List FoundryFolder) :
    Option (List String) :=
  match folderId with
  | none => none
  | some fid =>
    let p := resolveFolderPathGo folders (folders.length + 1) fid [] []
    if p.isEmpty then none else some p

/-- Attach folder information to a fetched journal as `loadJournals`
does: the journal's own fields win, then the summary's, then the
folder-tree walk. -/
def attachFolderPath (fenv : FoundryEnv) (summaries : List FoundryJournalSummary)
    (folders : List FoundryFolder) (id : String) : FoundryJournal :=
  let journal := fenv.getJournal id
  let summary := summaries.find? (fun s => s.id == id)
  let folderId := journal.folderId <|> (summary.bind (fun s => s.folderId))
  { journal with
    folderId := folderId,
    folderPath := journal.folderPath <|> (summary.bind (fun s => s.folderPath)) <|>
      resolveFolderPath folderId folders }

/-- The `loadJournals` method of the folder-aware service: always lists
summaries with a fixed limit of 200, loads the folder tree (tolerating
failure), then fetches either the explicitly requested ids or every
summary.  An empty id list is falsy in the guard and behaves like no
list. -/
def loadJournals (fenv : FoundryEnv) (journalIds : Option (List String)) :
    List FoundryJournal :=
  let summaries := fenv.listJournals 200
  let folders := fenv.listFolders.getD []
  match journalIds with
  | some (i :: is) => (i :: is).map (attachFolderPath fenv summaries folders)
  | _ => summaries.map (fun s => attachFolderPath fenv summaries folders s.id)

/-! ## Preview (`SyncService.preview`, `part_004`) -/

/-- Aggregate summary of a preview or apply result. -/
structure SyncSummary where
  create : Nat
  update : Nat
  skip : Nat
  conflict : Nat
deriving DecidableEq, Repr

/-- The `summarize` helper. -/
def summarize (items : List JournalPreviewItem) : SyncSummary :=
  { create := (items.filter (fun x => x.action == SyncAction.create)).length,
    update := (items.filter (fun x => x.action == SyncAction.update)).length,
    skip := (items.filter (fun x => x.action == SyncAction.skip)).length,
    conflict := (items.filter (fun x => x.action == SyncAction.conflict)).length }

/-- Preview / apply result envelope. -/
structure SyncPreviewResult where
  mode : String
  items : List JournalPreviewItem
  summary : SyncSummary
deriving DecidableEq, Repr

/-- Read of the sync mapping, threading the world (a read op). -/
def getSyncMapW (id : String) (w : World) : Option SyncMap × World :=
  (getSyncMap w.store id, w)

/-- Destination match lookup, threading the world (a read op). -/
def findPageW (nenv : NotionEnv) (name : String) (aliases path : List String)
    (w : World) : Option String × World :=
  (nenv.findPage name aliases path, w)

/-- Destination last-edited read, threading the world (a read op). -/
def getPageLastEditedW (nenv : NotionEnv) (pid : String) (w : World) : Int × World :=
  (nenv.pageLastEdited pid, w)

/-- The preview loop body over the loaded journals, threading the world
through every adapter and store access exactly as the code awaits them. -/
def previewItems (nenv : NotionEnv) :
    List FoundryJournal → World → List JournalPreviewItem × World
  | [], w => ([], w)
  | j :: rest, w =>
    let sourceHash := hashJournal j
    let (pid?, w1) := findPageW nenv j.name (j.aliases.getD []) (j.folderPath.getD []) w
    let (map?, w2) := getSyncMapW j.id w1
    let (item, w3) :=
      match map?, pid? with
      | some m, some pid =>
        let (editedAt, w2a) := getPageLastEditedW nenv pid w2
        if detectConflict m sourceHash editedAt then
          (({ journalId := j.id, title := j.name, notionPageId := some pid,
              action := SyncAction.conflict,
              reason := some "Source changed and Notion page was edited after last sync.",
              sourceHash := sourceHash } : JournalPreviewItem), w2a)
        else
          ({ journalId := j.id, title := j.name, notionPageId := some pid,
             action := SyncAction.update, reason := none, sourceHash := sourceHash }, w2a)
      | _, _ =>
        ({ journalId := j.id, title := j.name, notionPageId := pid?,
           action := if pid?.isSome then SyncAction.update else SyncAction.create,
           reason := none, sourceHash := sourceHash }, w2)
    let (items, w4) := previewItems nenv rest w3
    (item :: items, w4)

/-- The `preview` method: load, inspect each journal, summarize.  It
performs no mutation; the returned world witnesses that. -/
def preview (fenv : FoundryEnv) (nenv : NotionEnv) (journalIds : Option (List String))
    (w : World) : SyncPreviewResult × World :=
  let journals := loadJournals fenv journalIds
  let (items, w1) := previewItems nenv journals w
  ({ mode := "preview", items := items, summary := summarize items }, w1)

/-! ## Apply (`SyncService.apply`, `part_004`) -/

/-- The `buildConflict` method: a freshly generated conflict id
(`newId("conflict")` with the `randomUUID` value supplied), current
journal state, the destination's last-edited stamp and the target hash
carried over from the mapping (or `unknown`). -/
def buildConflict (j : FoundryJournal) (notionPageId : String)
    (currentMap : Option SyncMap) (uuid : String) (editedAt : Int) (now : Int) :
    SyncConflict :=
  { conflict_id := newId "conflict" uuid,
    foundry_id := j.id,
    notion_page_id := notionPageId,
    source_changed_at := j.updatedAt.getD (isoString now),
    target_changed_at := isoString editedAt,
    source_hash := hashJournal j,
    target_hash := (currentMap.map (fun m => m.target_hash)).getD "unknown",
    status := ConflictStatus.open,
    operator_notes := some "Conflict detected during apply. Manual resolution required." }

/-- Append an audit event line (`writeAudit`). -/
def writeAudit (w : World) (event : String) : World :=
  { w with audit := w.audit ++ [event] }

/-- The `ensureJournalPage` call on the `create` path: a page is created
(here: allocated in the destination state with a fresh page id derived
from the allocation counter) and its id returned. -/
def ensureJournalPage (ns : NotionState) (_name : String) : NotionState × String :=
  let pid := "page_" ++ natToString ns.nextBlockId
  ({ ns with
     pages := ns.pages ++ [{ pageId := pid, blocks := [] }],
     nextBlockId := ns.nextBlockId + 1 }, pid)

/-- The loop body of `apply` for one preview item.  Returns the world
after the item and, for create/update items, the rewritten item; a media
error propagates. -/
def applyItem (nenv : NotionEnv) (fetch : FetchEnv) (cfg : MediaCfg)
    (includeMedia : Option Bool) (uuid : String) (now : Int)
    (journalsById : List FoundryJournal) (item : JournalPreviewItem) (w : World) :
    Except String (Option JournalPreviewItem) × World :=
  match journalsById.find? (fun j => j.id == item.journalId) with
  | none => (Except.ok none, w)
  | some j =>
    match item.action with
    | SyncAction.skip => (Except.ok (some item), w)
    | SyncAction.conflict =>
      let (editedAt, w0) := getPageLastEditedW nenv (item.notionPageId.getD "") w
      let conflict := buildConflict j (item.notionPageId.getD "")
        (getSyncMap w0.store j.id) uuid editedAt now
      let w1 := { w0 with store := insertConflict w0.store conflict }
      let w2 := writeAudit w1 "conflict_created"
      (Except.ok (some item), w2)
    | _ =>
      let (notionPageId, wA) :=
        match item.notionPageId with
        | some pid => (pid, w)
        | none =>
          let (ns, pid) := ensureJournalPage w.notion j.name
          (pid, { w with notion := ns })
      let shouldIncludeMedia := includeMedia ≠ some false
      let (mediaRes, wB) :=
        if shouldIncludeMedia then copyAll fetch cfg now (j.media.getD []) wA
        else (Except.ok [], wA)
      match mediaRes with
      | Except.error e => (Except.error e, wB)
      | Except.ok mediaCopies =>
        let mirrorPayload := buildMirrorPayload j mediaCopies shouldIncludeMedia now
        let targetHash := sha256 (mirrorPayloadJson mirrorPayload)
        let existingMap := getSyncMap wB.store j.id
        let (ns2, mirrorBlockId) := upsertFoundryMirror wB.notion notionPageId
          mirrorPayload (existingMap.bind (fun m => m.notion_mirror_block_id)) now
        let map : SyncMap :=
          { foundry_type := "journal",
            foundry_id := j.id,
            notion_page_id := notionPageId,
            canonical_name := j.name,
            last_sync_direction := "foundry_to_notion",
            source_hash := item.sourceHash,
            target_hash := targetHash,
            last_synced_at := now,
            notion_mirror_block_id := some mirrorBlockId }
        let wC := { wB with notion := ns2, store := upsertSyncMap wB.store map }
        let wD := writeAudit wC "journal_synced"
        (Except.ok (some { item with notionPageId := some notionPageId }), wD)

/-- The apply loop over the preview items; `uuids` supplies the
`randomUUID` values consumed along the run and `k` indexes the next
one. -/
def applyLoop (fenv : FoundryEnv) (nenv : NotionEnv) (fetch : FetchEnv) (cfg : MediaCfg)
    (includeMedia : Option Bool) (uuids : Nat → String) (now : Int)
    (journalsById : List FoundryJournal) :
    List JournalPreviewItem → Nat → World → Except String (List JournalPreviewItem) × World
  | [], _, w => (Except.ok [], w)
  | item :: rest, k, w =>
    match applyItem nenv fetch cfg includeMedia (uuids k) now journalsById item w with
    | (Except.error e, w1) => (Except.error e, w1)
    | (Except.ok produced, w1) =>
      match applyLoop fenv nenv fetch cfg includeMedia uuids now journalsById rest (k + 1) w1 with
      | (Except.ok items, w2) =>
        (Except.ok (match produced with | some it => it :: items | none => items), w2)
      | (Except.error e, w2) => (Except.error e, w2)

/-- Render a summary for the run record. -/
def summaryJsonOf (s : SyncSummary) : String :=
  lbr ++ jsonQuote "create" ++ ":" ++ natToString s.create ++
  "," ++ jsonQuote "update" ++ ":" ++ natToString s.update ++
  "," ++ jsonQuote "skip" ++ ":" ++ natToString s.skip ++
  "," ++ jsonQuote "conflict" ++ ":" ++ natToString s.conflict ++ rbr

/-- The `apply` method: open a run record, re-run preview, process every
item, close the run as `success`, or close it as `failed` and re-raise
when an error escapes the loop (partial progress staying committed). -/
def applyRun (fenv : FoundryEnv) (nenv : NotionEnv) (fetch : FetchEnv) (cfg : MediaCfg)
    (journalIds : Option (List String)) (includeMedia : Option Bool) (mode : Option String)
    (uuids : Nat → String) (now : Int) (w : World) :
    Except String SyncPreviewResult × World :=
  let runId := newId "run" (uuids 0)
  let w1 := { w with store := startRun w.store runId (mode.getD "incremental") now }
  let (previewRes, w2) := preview fenv nenv journalIds w1
  let journalsById := loadJournals fenv journalIds
  match applyLoop fenv nenv fetch cfg includeMedia (fun k => uuids (k + 1)) now
      journalsById previewRes.items 0 w2 with
  | (Except.ok items, w3) =>
    let result : SyncPreviewResult :=
      { mode := "apply", items := items, summary := summarize items }
    (Except.ok result,
     { w3 with store := finishRun w3.store runId "success" now (summaryJsonOf result.summary) })
  | (Except.error e, w3) =>
    (Except.error e,
     { w3 with store := finishRun w3.store runId "failed" now e })

/-! ## Source servers answering `listJournals` (claim C10)

`FoundryClient.listJournals` sends `limit` as a query parameter when it
is truthy.  Two repository servers answer the route: the mock API server
slices the fixture to the limit (default 200), while the Foundry module
behind the socket proxy ignores the limit and returns every journal. -/

/-- What a server does with an optional `limit` query parameter. -/
def JournalServer : Type := Option Nat → List FoundryJournalSummary

/-- The mock API server's `/journals` route
(`fixture.journals.slice(0, Number(limit ?? "200"))`). -/
def mockServer (fixture : List FoundryJournalSummary) : JournalServer :=
  fun limitParam => fixture.take (limitParam.getD 200)

/-- The Foundry module's `list_journals` action (`part_001`): it maps
every entry of `game.journal.contents` and never reads the limit the
socket proxy forwards. -/
def moduleServer (worldJournals : List FoundryJournalSummary) : JournalServer :=
  fun _ => worldJournals

/-- `FoundryClient.listJournals`: the limit is put on the query string
only when truthy, then the server answers. -/
def clientListJournals (server : JournalServer) (limit : Option Nat) :
    List FoundryJournalSummary :=
  server (match limit with
          | some n => if n ≠ 0 then some n else none
          | none => none)

/-- A Foundry environment backed by a `/journals` server. -/
def fenvOfServer (server : JournalServer) (getJournal : String → FoundryJournal)
    (listFolders : Option (List FoundryFolder)) : FoundryEnv :=
  { listJournals := fun limit => clientListJournals server (some limit),
    getJournal := getJournal,
    listFolders := listFolders }

/-- The service-level `resolveConflict`: prepend the resolution tag to
the notes and mark the conflict `resolved`. -/
def serviceResolveConflict (s : StateStore) (conflictId : String)
    (resolution : String) (notes : String) : StateStore × Bool :=
  updateConflictResolution s conflictId ResolutionStatus.resolved
    ("[" ++ resolution ++ "] " ++ notes)

/-- Left-brace character. -/
def lbrChar : Char := Char.ofNat 123

/-- Right-brace character. -/
def rbrChar : Char := Char.ofNat 125

/-! ## Parsers for the serialized media objects (verification artifacts) -/

/-- Reduced tuple of one media reference as the hasher serializes it. -/
def mediaReduced (m : FoundryMediaAsset) :
    Option String × String × Option String × Option String :=
  (m.assetId, m.sourceUrl, m.filename, m.mimeType)

/-- Key/value pairs of the serialized media object, in serialization
order with `undefined` fields dropped. -/
def mediaPairs (m : FoundryMediaAsset) : List (String × String) :=
  (match m.assetId with
   | some a => [("assetId", a)]
   | none => []) ++
  [("sourceUrl", m.sourceUrl)] ++
  (match m.filename with
   | some f => [("filename", f)]
   | none => []) ++
  (match m.mimeType with
   | some mt => [("mimeType", mt)]
   | none => [])

/-- Serialized JSON object over string key/value pairs. -/
def jsonObjOf (pairs : List (String × String)) : String :=
  lbr ++ joinSep "," (pairs.map (fun kv => jsonQuote kv.1 ++ ":" ++ jsonQuote kv.2)) ++ rbr

/-- Parse one `"key":"value"` pair. -/
def parsePair (l : List Char) : Option ((List Char × List Char) × List Char) :=
  match l with
  | c :: l0 =>
    if c = '"' then
      match parseQStr l0 with
      | some (k, l1) =>
        match l1 with
        | ':' :: l2 =>
          match l2 with
          | d :: l3 =>
            if d = '"' then
              match parseQStr l3 with
              | some (v, l4) => some ((k, v), l4)
              | none => none
            else none
          | [] => none
        | _ => none
      | none => none
    else none
  | [] => none

/-- Parse one-or-more comma-separated pairs up to the closing brace. -/
def parsePairs : Nat → List Char → Option (List (List Char × List Char) × List Char)
  | 0, _ => none
  | fuel + 1, l =>
    match parsePair l with
    | none => none
    | some (kv, r) =>
      match r with
      | c :: r2 =>
        if c = rbrChar then some ([kv], r2)
        else if c = ',' then
          match parsePairs fuel r2 with
          | some (kvs, r3) => some (kv :: kvs, r3)
          | none => none
        else none
      | [] => none

/-- Parse a serialized JSON object into its pair list. -/
def parseObj (l : List Char) : Option (List (List Char × List Char) × List Char) :=
  match l with
  | c :: rest =>
    if c = lbrChar then
      match rest with
      | d :: rest2 => if d = rbrChar then some ([], rest2) else parsePairs (rest.length + 1) rest
      | [] => none
    else none
  | [] => none

/-- Parse one-or-more comma-separated objects up to the closing bracket. -/
def parseObjItems :
    Nat → List Char → Option (List (List (List Char × List Char)) × List Char)
  | 0, _ => none
  | fuel + 1, l =>
    match parseObj l with
    | none => none
    | some (obj, r) =>
      match r with
      | ']' :: r2 => some ([obj], r2)
      | ',' :: r2 =>
        match parseObjItems fuel r2 with
        | some (objs, r3) => some (obj :: objs, r3)
        | none => none
      | _ => none

/-- Parse a serialized array of JSON objects. -/
def parseObjArr (l : List Char) :
    Option (List (List (List Char × List Char)) × List Char) :=
  match l with
  | c :: rest =>
    if c = '[' then
      match rest with
      | d :: rest2 => if d = ']' then some ([], rest2) else parseObjItems (rest.length + 1) rest
      | [] => none
    else none
  | [] => none

/-- Character-data image of a pair list. -/
def pairData (kv : String × String) : List Char × List Char := (kv.1.data, kv.2.data)

/-- The synchronizable fields the folder-aware hasher serializes,
normalized the way `hashJournal` normalizes them. -/
structure SyncFields where
  id : String
  name : String
  aliases : List String
  folderPath : List String
  updatedAt : Option String
  content : String
  media : List (Option String × String × Option String × Option String)
deriving DecidableEq, Repr

/-- Extraction of the synchronizable fields from a journal. -/
def syncFields (j : FoundryJournal) : SyncFields :=
  { id := j.id, name := j.name, aliases := j.aliases.getD [],
    folderPath := j.folderPath.getD [], updatedAt := j.updatedAt,
    content := j.content, media := (j.media.getD []).map mediaReduced }

/-- The fields the `src/sync/service.ts` hasher serializes: the same
minus the folder path. -/
def legacyFields (j : FoundryJournal) : SyncFields :=
  { syncFields j with folderPath := [] }

/-! ## Concrete fixtures used by the closed counterexamples -/

/-- A journal fixture. -/
def journalFixture : FoundryJournal :=
  { id := "J1", name := "Harbor Town", folderId := some "F1",
    folderPath := some ["World", "Places"], createdAt := none,
    updatedAt := some "2026-01-01T00:00:00.000Z",
    content := "<p>A quiet harbor.</p>", aliases := some ["Port"],
    media := none }

/-- The same journal under a different folder path. -/
def journalFixtureMoved : FoundryJournal :=
  { journalFixture with folderPath := some ["World", "Coast"] }

/-! ## Verification artifacts for the double-apply analysis (claim C2) -/

/-- The preview item produced for a single already-matched journal on
the no-conflict path: an `update` against the matched page. -/
def singleUpdateItem (j : FoundryJournal) (pid : String) : JournalPreviewItem :=
  { journalId := j.id, title := j.name, notionPageId := some pid,
    action := SyncAction.update, reason := none, sourceHash := hashJournal j }

/-- The world `applyRun` reaches on that path, written out step by step:
run record opened, mirror container upserted, mapping row upserted,
audit line appended, run record closed as `success`. -/
def applySingleWorld (j : FoundryJournal) (pid runId : String) (t : Int) (w : World) : World :=
  let w1 : World := { w with store := startRun w.store runId "incremental" t }
  let payload := buildMirrorPayload j [] true t
  let prev := (getSyncMap w1.store j.id).bind (fun m => m.notion_mirror_block_id)
  let up := upsertFoundryMirror w1.notion pid payload prev t
  let map : SyncMap :=
    { foundry_type := "journal", foundry_id := j.id, notion_page_id := pid,
      canonical_name := j.name, last_sync_direction := "foundry_to_notion",
      source_hash := hashJournal j,
      target_hash := sha256 (mirrorPayloadJson payload),
      last_synced_at := t, notion_mirror_block_id := some up.2 }
  let wD := writeAudit { w1 with notion := up.1, store := upsertSyncMap w1.store map }
    "journal_synced"
  let sj := summaryJsonOf (summarize [singleUpdateItem j pid])
  { wD with store := finishRun wD.store runId "success" t sj }

/-- Summary row fixture matching `journalFixture`. -/
def summaryFixture : FoundryJournalSummary :=
  { id := "J1", name := "Harbor Town", folderId := some "F1",
    folderPath := some ["World", "Places"], createdAt := none,
    updatedAt := some "2026-01-01T00:00:00.000Z" }

/-- Source environment fixture serving `journalFixture`. -/
def cFenv : FoundryEnv :=
  { listJournals := fun _ => [summaryFixture],
    getJournal := fun _ => journalFixture,
    listFolders := some [] }

/-- Destination environment fixture: every lookup matches page `P1`. -/
def cNenv : NotionEnv :=
  { findPage := fun _ _ _ => some "P1", pageLastEdited := fun _ => 0 }

/-- Fetch fixture (unused on the media-free path). -/
def cFetch : FetchEnv := fun _ => Except.error "offline"

/-- Media configuration fixture. -/
def cCfg : MediaCfg := { mediaDir := "/m", mediaPublicBaseUrl := none }

/-- Deterministic `randomUUID` stream fixture. -/
def cUuids : Nat → String := fun n => natToString n

/-- Initial world fixture: empty store, one empty destination page. -/
def cWorld : World :=
  { store := { syncMaps := [], conflicts := [], mediaMaps := [], runs := [] },
    notion := { pages := [{ pageId := "P1", blocks := [] }], nextBlockId := 0 },
    audit := [], mediaFiles := [] }

/-! # Theorems -/

/-! ## Generic helper lemmas -/

/-- Strings with equal character data are equal. -/
theorem strData_inj {s t : String} (h : s.data = t.data) : s = t := by
  cases s; cases t; exact congrArg String.mk h

/-- Characters with equal code points are equal. -/
theorem charToNat_inj {c d : Char} (h : c.toNat = d.toNat) : c = d :=
  Char.ext (UInt32.ext h)

/-- The hex digit rendering inverts on values below 16. -/
theorem hexVal_hexDigitChar : ∀ n, n < 16 → hexVal (hexDigitChar n) = n := by decide

/-- Code points below 32 survive `Char.ofNat`. -/
theorem toNat_ofNat_lt32 : ∀ n, n < 32 → (Char.ofNat n).toNat = n := by decide

/-- Rebuilding a low control character from its code point. -/
theorem ofNat_toNat_lt32 {c : Char} (h : c.toNat < 32) : Char.ofNat c.toNat = c :=
  charToNat_inj (toNat_ofNat_lt32 _ h)

/-! ## Unique decodability of escaped JSON strings -/

/-- One escaped character followed by well-formed input parses back. -/
theorem parseQStr_cons (c : Char) (tl r : List Char)
    (ih : parseQStr (jsonEscape tl ++ '"' :: r) = some (tl, r)) :
    parseQStr (jsonEscapeChar c ++ (jsonEscape tl ++ '"' :: r)) = some (c :: tl, r) := by
  unfold jsonEscapeChar
  split_ifs with h1 h2 h3 h4 h5 h6 h7 h8
  · subst h1; rw [parseQStr.eq_def]; simp [unescapeChar, ih]
  · subst h2; rw [parseQStr.eq_def]; simp [unescapeChar, ih]
  · subst h3; rw [parseQStr.eq_def]; simp [unescapeChar, ih]
  · subst h4; rw [parseQStr.eq_def]; simp [unescapeChar, ih]
  · subst h5; rw [parseQStr.eq_def]; simp [unescapeChar, ih]
  · subst h6; rw [parseQStr.eq_def]; simp [unescapeChar, ih]
  · subst h7; rw [parseQStr.eq_def]; simp [unescapeChar, ih]
  · have hd : hexVal (hexDigitChar (c.toNat / 16)) = c.toNat / 16 :=
      hexVal_hexDigitChar _ (by omega)
    have hl : hexVal (hexDigitChar (c.toNat % 16)) = c.toNat % 16 :=
      hexVal_hexDigitChar _ (by omega)
    have hcomb : 16 * (c.toNat / 16) + c.toNat % 16 = c.toNat := by omega
    rw [parseQStr.eq_def]
    simp [ih, hd, hl, hcomb, ofNat_toNat_lt32 h8]
  · rw [parseQStr.eq_def]; simp [h1, h2, ih]

/-- Round trip for escaped string bodies followed by a closing quote. -/
theorem parseQStr_round : ∀ (s r : List Char), parseQStr (jsonEscape s ++ '"' :: r) = some (s, r)
  | [], r => by rw [parseQStr.eq_def]; simp [jsonEscape]
  | c :: tl, r => by
    have ih := parseQStr_round tl r
    have h := parseQStr_cons c tl r ih
    simpa [jsonEscape, List.append_assoc] using h

/-- Escaped bodies followed by closing quotes cancel. -/
theorem jsonEscape_cancel {s1 s2 r1 r2 : List Char}
    (h : jsonEscape s1 ++ '"' :: r1 = jsonEscape s2 ++ '"' :: r2) : s1 = s2 ∧ r1 = r2 := by
  have h1 := parseQStr_round s1 r1
  rw [h, parseQStr_round s2 r2] at h1
  have h2 := Option.some.inj h1
  exact ⟨(Prod.mk.injEq _ _ _ _ ▸ h2).1.symm, (Prod.mk.injEq _ _ _ _ ▸ h2).2.symm⟩

/-- JSON string literals cancel as prefixes. -/
theorem jsonQuoteChars_cancel {s1 s2 : String} {r1 r2 : List Char}
    (h : jsonQuoteChars s1 ++ r1 = jsonQuoteChars s2 ++ r2) : s1 = s2 ∧ r1 = r2 := by
  unfold jsonQuoteChars at h
  simp only [List.cons_append, List.cons.injEq, List.append_assoc, List.singleton_append] at h
  have := jsonEscape_cancel h.2
  exact ⟨strData_inj this.1, this.2⟩

/-- A quoted literal has at least two characters. -/
theorem jsonQuote_data_len (s : String) : 2 ≤ (jsonQuote s).data.length := by
  simp [jsonQuote, jsonQuoteChars]

/-- The joined quoted items dominate the item count in length. -/
theorem joinSep_quote_len : ∀ (l : List String),
    l.length ≤ (joinSep "," (l.map jsonQuote)).data.length
  | [] => by simp [joinSep]
  | [s] => by
    have h := jsonQuote_data_len s
    simp only [List.map_cons, List.map_nil, joinSep, List.length_cons, List.length_nil]
    omega
  | s :: s2 :: tl => by
    have ih := joinSep_quote_len (s2 :: tl)
    have hq := jsonQuote_data_len s
    simp only [List.map_cons, joinSep, List.length_cons] at ih ⊢
    simp only [String.data_append]
    simp only [List.length_append]
    have : (",".data).length = 1 := by decide
    omega

/-- Round trip for a nonempty comma-separated run of quoted strings. -/
theorem parseQItems_round : ∀ (l : List String) (s : String) (f : Nat) (r : List Char),
    l.length ≤ f →
    parseQItems (f + 1) ((joinSep "," ((s :: l).map jsonQuote)).data ++ ']' :: r) =
      some ((s :: l).map String.data, r)
  | [], s, f, r, _ => by
    rw [parseQItems.eq_def]
    simp only [List.map_cons, List.map_nil, joinSep, jsonQuote]
    have h := parseQStr_round s.data (']' :: r)
    simp only [jsonQuoteChars, List.cons_append, List.append_assoc,
      List.singleton_append] at h ⊢
    simp [h]
  | s2 :: tl, s, f, r, hf => by
    obtain ⟨f2, rfl⟩ : ∃ f2, f = f2 + 1 :=
      ⟨f - 1, by simp only [List.length_cons] at hf; omega⟩
    have ih := parseQItems_round tl s2 f2 r
      (by simp only [List.length_cons] at hf; omega)
    have hcomma : (",".data) = [','] := by decide
    have hq : ∀ x : String, (jsonQuote x).data = jsonQuoteChars x := fun _ => rfl
    have hjoin : (joinSep "," ((s :: s2 :: tl).map jsonQuote)).data =
        jsonQuoteChars s ++ ',' :: (joinSep "," ((s2 :: tl).map jsonQuote)).data := by
      simp only [List.map_cons, joinSep, String.data_append, hq, hcomma,
        List.append_assoc, List.singleton_append]
    rw [parseQItems.eq_def, hjoin]
    have h := parseQStr_round s.data
      (',' :: ((joinSep "," ((s2 :: tl).map jsonQuote)).data ++ ']' :: r))
    simp only [jsonQuoteChars, List.cons_append, List.append_assoc,
      List.singleton_append, List.map_cons] at h ih ⊢
    simp [h, ih]

/-- Round trip for serialized string arrays. -/
theorem parseQArr_round : ∀ (l : List String) (r : List Char),
    parseQArr ((jsonStrArr l).data ++ r) = some (l.map String.data, r)
  | [], r => by
    rw [parseQArr.eq_def]
    have : (jsonStrArr []).data = ['[', ']'] := by decide
    simp [this]
  | s :: tl, r => by
    have hbody : ∃ bt, (joinSep "," ((s :: tl).map jsonQuote)).data = '"' :: bt := by
      cases tl with
      | nil =>
        exact ⟨jsonEscape s.data ++ ['"'], by simp [joinSep, jsonQuote, jsonQuoteChars]⟩
      | cons a b =>
        refine ⟨jsonEscape s.data ++ ['"'] ++
          ',' :: (joinSep "," ((a :: b).map jsonQuote)).data, ?_⟩
        have hcomma : (",".data) = [','] := by decide
        simp [joinSep, jsonQuote, jsonQuoteChars, String.data_append, hcomma]
    obtain ⟨bt, hbt⟩ := hbody
    have hlen := joinSep_quote_len (s :: tl)
    have hitems := parseQItems_round tl s
      (((joinSep "," ((s :: tl).map jsonQuote)).data ++ ']' :: r).length) r (by
        simp only [List.length_append, List.length_cons, List.length_map] at *
        omega)
    rw [parseQArr.eq_def]
    have hdata : (jsonStrArr (s :: tl)).data ++ r =
        '[' :: ((joinSep "," ((s :: tl).map jsonQuote)).data ++ ']' :: r) := by
      have hl : ("[" : String).data = ['['] := by decide
      have hr : ("]" : String).data = [']'] := by decide
      simp [jsonStrArr, String.data_append, hl, hr]
    rw [hdata, hbt]
    rw [hbt] at hitems
    simpa using hitems

/-- Mapping to character data is injective. -/
theorem mapData_inj : ∀ {a b : List String}, a.map String.data = b.map String.data → a = b
  | [], [], _ => rfl
  | [], _ :: _, h => by simp at h
  | _ :: _, [], h => by simp at h
  | x :: xs, y :: ys, h => by
    simp only [List.map_cons, List.cons.injEq] at h
    exact by rw [strData_inj h.1, mapData_inj h.2]

/-- Serialized string arrays cancel as prefixes. -/
theorem jsonStrArr_cancel {l1 l2 : List String} {r1 r2 : List Char}
    (h : (jsonStrArr l1).data ++ r1 = (jsonStrArr l2).data ++ r2) : l1 = l2 ∧ r1 = r2 := by
  have h1 := parseQArr_round l1 r1
  rw [h, parseQArr_round l2 r2] at h1
  have h2 := Option.some.inj h1
  have hmap : (l2.map String.data) = (l1.map String.data) := congrArg Prod.fst h2
  exact ⟨(mapData_inj hmap).symm, (congrArg Prod.snd h2).symm⟩

/-! ## Unique decodability of serialized objects -/

/-- Round trip for one serialized pair. -/
theorem parsePair_round (k v : String) (r : List Char) :
    parsePair ((jsonQuote k ++ ":" ++ jsonQuote v).data ++ r) = some ((k.data, v.data), r) := by
  have hcolon : (":".data) = [':'] := by decide
  have hk := parseQStr_round k.data (':' :: (jsonQuoteChars v ++ r))
  have hv := parseQStr_round v.data r
  rw [parsePair.eq_def]
  simp only [String.data_append, jsonQuote, hcolon, jsonQuoteChars, List.cons_append,
    List.append_assoc, List.singleton_append, List.nil_append] at hk hv ⊢
  simp [hk, hv]

/-- Pair bodies have at least five characters. -/
theorem pairBody_len (kv : String × String) :
    2 ≤ ((jsonQuote kv.1 ++ ":" ++ jsonQuote kv.2).data).length := by
  simp [jsonQuote, jsonQuoteChars, String.data_append]
  omega

/-- The joined pairs dominate the pair count in length. -/
theorem joinSep_pairs_len : ∀ (l : List (String × String)),
    l.length ≤ (joinSep "," (l.map (fun kv => jsonQuote kv.1 ++ ":" ++ jsonQuote kv.2))).data.length
  | [] => by simp [joinSep]
  | [kv] => by
    have h := pairBody_len kv
    simp only [List.map_cons, List.map_nil, joinSep, List.length_cons, List.length_nil]
    omega
  | kv :: kv2 :: tl => by
    have ih := joinSep_pairs_len (kv2 :: tl)
    have hq := jsonQuote_data_len kv.1
    simp only [List.map_cons, joinSep, List.length_cons] at ih ⊢
    simp only [String.data_append]
    simp only [List.length_append]
    have : (",".data).length = 1 := by decide
    omega

/-- Round trip for a nonempty comma-separated run of pairs closed by a
brace. -/
theorem parsePairs_round : ∀ (l : List (String × String)) (kv : String × String)
    (f : Nat) (r : List Char),
    l.length ≤ f →
    parsePairs (f + 1)
      ((joinSep "," ((kv :: l).map (fun x => jsonQuote x.1 ++ ":" ++ jsonQuote x.2))).data ++
        rbrChar :: r) =
      some ((kv :: l).map pairData, r)
  | [], kv, f, r, _ => by
    rw [parsePairs.eq_def]
    have hcolon : (":".data) = [':'] := by decide
    have h := parsePair_round kv.1 kv.2 (rbrChar :: r)
    simp only [List.map_cons, List.map_nil, joinSep, String.data_append, hcolon,
      List.append_assoc, List.singleton_append, List.cons_append, List.nil_append] at h ⊢
    simp [h, pairData]
  | kv2 :: tl, kv, f, r, hf => by
    obtain ⟨f2, rfl⟩ : ∃ f2, f = f2 + 1 :=
      ⟨f - 1, by simp only [List.length_cons] at hf; omega⟩
    have ih := parsePairs_round tl kv2 f2 r
      (by simp only [List.length_cons] at hf; omega)
    have hcomma : (",".data) = [','] := by decide
    have hjoin : (joinSep ","
        ((kv :: kv2 :: tl).map (fun x => jsonQuote x.1 ++ ":" ++ jsonQuote x.2))).data =
        (jsonQuote kv.1 ++ ":" ++ jsonQuote kv.2).data ++
          ',' :: (joinSep ","
            ((kv2 :: tl).map (fun x => jsonQuote x.1 ++ ":" ++ jsonQuote x.2))).data := by
      simp only [List.map_cons, joinSep, String.data_append, hcomma,
        List.append_assoc, List.singleton_append]
    rw [parsePairs.eq_def, hjoin]
    have h := parsePair_round kv.1 kv.2
      (',' :: ((joinSep ","
        ((kv2 :: tl).map (fun x => jsonQuote x.1 ++ ":" ++ jsonQuote x.2))).data ++
        rbrChar :: r))
    have hcolon : (":".data) = [':'] := by decide
    simp only [List.map_cons, String.data_append, hcolon, List.append_assoc,
      List.singleton_append, List.cons_append, List.nil_append] at h ih ⊢
    have hne : ¬ (',' = rbrChar) := by decide
    simp [h, ih, hne, pairData]

/-- Round trip for serialized objects. -/
theorem parseObj_round : ∀ (pairs : List (String × String)) (r : List Char),
    parseObj ((jsonObjOf pairs).data ++ r) = some (pairs.map pairData, r)
  | [], r => by
    rw [parseObj.eq_def]
    have hdata : (jsonObjOf []).data = [lbrChar, rbrChar] := by decide
    simp [hdata]
  | kv :: tl, r => by
    have hbody : ∃ bt, (joinSep ","
        ((kv :: tl).map (fun x => jsonQuote x.1 ++ ":" ++ jsonQuote x.2))).data = '"' :: bt := by
      cases tl with
      | nil =>
        refine ⟨(jsonEscape kv.1.data ++ ['"']) ++ ':' :: (jsonQuote kv.2).data, ?_⟩
        have hcolon : (":".data) = [':'] := by decide
        simp [joinSep, jsonQuote, jsonQuoteChars, String.data_append, hcolon]
      | cons kv2 b =>
        refine ⟨(jsonEscape kv.1.data ++ ['"']) ++ ':' :: ((jsonQuote kv.2).data ++
          ',' :: (joinSep ","
            ((kv2 :: b).map (fun x => jsonQuote x.1 ++ ":" ++ jsonQuote x.2))).data), ?_⟩
        have hcolon : (":".data) = [':'] := by decide
        have hcomma : (",".data) = [','] := by decide
        simp [joinSep, jsonQuote, jsonQuoteChars, String.data_append, hcolon, hcomma]
    obtain ⟨bt, hbt⟩ := hbody
    have hlen := joinSep_pairs_len (kv :: tl)
    have hpairs := parsePairs_round tl kv
      (((joinSep "," ((kv :: tl).map (fun x => jsonQuote x.1 ++ ":" ++ jsonQuote x.2))).data ++
        rbrChar :: r).length) r (by
        simp only [List.length_append, List.length_cons, List.length_map] at *
        omega)
    rw [parseObj.eq_def]
    have hdata : (jsonObjOf (kv :: tl)).data ++ r =
        lbrChar :: ((joinSep ","
          ((kv :: tl).map (fun x => jsonQuote x.1 ++ ":" ++ jsonQuote x.2))).data ++
          rbrChar :: r) := by
      have hl : (lbr : String).data = [lbrChar] := by decide
      have hr : (rbr : String).data = [rbrChar] := by decide
      simp [jsonObjOf, String.data_append, hl, hr]
    rw [hdata, hbt]
    rw [hbt] at hpairs
    have hne : ¬ ('"' = rbrChar) := by decide
    simpa [hne] using hpairs

/-- A serialized object has at least two characters. -/
theorem jsonObjOf_data_len (pairs : List (String × String)) :
    2 ≤ (jsonObjOf pairs).data.length := by
  have hl : (lbr : String).data = [lbrChar] := by decide
  have hr : (rbr : String).data = [rbrChar] := by decide
  simp [jsonObjOf, String.data_append, hl, hr]

/-- The joined serialized objects dominate the object count in length. -/
theorem joinSep_obj_len : ∀ (l : List (List (String × String))),
    l.length ≤ (joinSep "," (l.map jsonObjOf)).data.length
  | [] => by simp [joinSep]
  | [o] => by
    have h := jsonObjOf_data_len o
    simp only [List.map_cons, List.map_nil, joinSep, List.length_cons, List.length_nil]
    omega
  | o :: o2 :: tl => by
    have ih := joinSep_obj_len (o2 :: tl)
    have hq := jsonObjOf_data_len o
    simp only [List.map_cons, joinSep, List.length_cons] at ih ⊢
    simp only [String.data_append]
    simp only [List.length_append]
    have : (",".data).length = 1 := by decide
    omega

/-- Round trip for a nonempty comma-separated run of objects. -/
theorem parseObjItems_round : ∀ (l : List (List (String × String)))
    (o : List (String × String)) (f : Nat) (r : List Char),
    l.length ≤ f →
    parseObjItems (f + 1) ((joinSep "," ((o :: l).map jsonObjOf)).data ++ ']' :: r) =
      some ((o :: l).map (fun pairs => pairs.map pairData), r)
  | [], o, f, r, _ => by
    rw [parseObjItems.eq_def]
    have h := parseObj_round o (']' :: r)
    simp only [List.map_cons, List.map_nil, joinSep] at h ⊢
    simp [h]
  | o2 :: tl, o, f, r, hf => by
    obtain ⟨f2, rfl⟩ : ∃ f2, f = f2 + 1 :=
      ⟨f - 1, by simp only [List.length_cons] at hf; omega⟩
    have ih := parseObjItems_round tl o2 f2 r
      (by simp only [List.length_cons] at hf; omega)
    have hcomma : (",".data) = [','] := by decide
    have hjoin : (joinSep "," ((o :: o2 :: tl).map jsonObjOf)).data =
        (jsonObjOf o).data ++ ',' :: (joinSep "," ((o2 :: tl).map jsonObjOf)).data := by
      simp only [List.map_cons, joinSep, String.data_append, hcomma,
        List.append_assoc, List.singleton_append]
    rw [parseObjItems.eq_def, hjoin]
    have h := parseObj_round o
      (',' :: ((joinSep "," ((o2 :: tl).map jsonObjOf)).data ++ ']' :: r))
    simp only [List.map_cons, List.append_assoc, List.cons_append, List.nil_append] at h ih ⊢
    simp [h, ih]

/-- Serialized array of objects. -/
theorem parseObjArr_round : ∀ (l : List (List (String × String))) (r : List Char),
    parseObjArr (("[" ++ joinSep "," (l.map jsonObjOf) ++ "]").data ++ r) =
      some (l.map (fun pairs => pairs.map pairData), r)
  | [], r => by
    have hdata : (("[" ++ joinSep "," (([] : List (List (String × String))).map jsonObjOf)
      ++ "]") : String).data = ['[', ']'] := by decide
    rw [parseObjArr.eq_def, hdata]
    simp
  | o :: tl, r => by
    have hbody : ∃ bt, (joinSep "," ((o :: tl).map jsonObjOf)).data = lbrChar :: bt := by
      have hl : (lbr : String).data = [lbrChar] := by decide
      cases tl with
      | nil =>
        refine ⟨(joinSep "," (o.map (fun kv => jsonQuote kv.1 ++ ":" ++ jsonQuote kv.2))).data
          ++ (rbr : String).data, ?_⟩
        simp [joinSep, jsonObjOf, String.data_append, hl]
      | cons o2 b =>
        refine ⟨((joinSep "," (o.map (fun kv => jsonQuote kv.1 ++ ":" ++ jsonQuote kv.2))).data
          ++ (rbr : String).data) ++ ',' :: (joinSep "," ((o2 :: b).map jsonObjOf)).data, ?_⟩
        have hcomma : (",".data) = [','] := by decide
        simp [joinSep, jsonObjOf, String.data_append, hl, hcomma]
    obtain ⟨bt, hbt⟩ := hbody
    have hlen := joinSep_obj_len (o :: tl)
    have hitems := parseObjItems_round tl o
      (((joinSep "," ((o :: tl).map jsonObjOf)).data ++ ']' :: r).length) r (by
        simp only [List.length_append, List.length_cons, List.length_map] at *
        omega)
    rw [parseObjArr.eq_def]
    have hdata : (("[" ++ joinSep "," ((o :: tl).map jsonObjOf) ++ "]") : String).data ++ r =
        '[' :: ((joinSep "," ((o :: tl).map jsonObjOf)).data ++ ']' :: r) := by
      have hlb : ("[" : String).data = ['['] := by decide
      have hrb : ("]" : String).data = [']'] := by decide
      simp [String.data_append, hlb, hrb]
    rw [hdata, hbt]
    rw [hbt] at hitems
    have hne : ¬ (lbrChar = ']') := by decide
    simpa [hne] using hitems

/-- Pair character data is injective. -/
theorem pairData_inj : ∀ {a b : String × String}, pairData a = pairData b → a = b := by
  intro a b h
  obtain ⟨h1, h2⟩ := Prod.mk.injEq .. ▸ h
  exact Prod.ext (strData_inj h1) (strData_inj h2)

/-- Mapping pair data over a list is injective. -/
theorem mapPairData_inj : ∀ {a b : List (String × String)},
    a.map pairData = b.map pairData → a = b
  | [], [], _ => rfl
  | [], _ :: _, h => by simp at h
  | _ :: _, [], h => by simp at h
  | x :: xs, y :: ys, h => by
    simp only [List.map_cons, List.cons.injEq] at h
    rw [pairData_inj h.1, mapPairData_inj h.2]

/-- The serialized media object is the serialized object of its pairs. -/
theorem mediaBasis_eq_objOf (m : FoundryMediaAsset) :
    mediaBasis m = jsonObjOf (mediaPairs m) := by
  rcases m with ⟨aid, url, fn, mt, sz⟩
  rcases aid with _ | a <;> rcases fn with _ | f <;> rcases mt with _ | t <;>
    simp [mediaBasis, mediaPairs, jsonObjOf, List.map_append]

/-- Serialized media arrays cancel as prefixes, up to the reduced pair
lists. -/
theorem mediaArr_cancel {ms1 ms2 : List FoundryMediaAsset} {r1 r2 : List Char}
    (h : ("[" ++ joinSep "," (ms1.map mediaBasis) ++ "]").data ++ r1 =
         ("[" ++ joinSep "," (ms2.map mediaBasis) ++ "]").data ++ r2) :
    ms1.map mediaPairs = ms2.map mediaPairs ∧ r1 = r2 := by
  have e1 : ms1.map mediaBasis = (ms1.map mediaPairs).map jsonObjOf := by
    simp only [List.map_map]
    exact List.map_congr_left (fun m _ => mediaBasis_eq_objOf m)
  have e2 : ms2.map mediaBasis = (ms2.map mediaPairs).map jsonObjOf := by
    simp only [List.map_map]
    exact List.map_congr_left (fun m _ => mediaBasis_eq_objOf m)
  rw [e1, e2] at h
  have h1 := parseObjArr_round (ms1.map mediaPairs) r1
  rw [h, parseObjArr_round (ms2.map mediaPairs) r2] at h1
  have h2 := Option.some.inj h1
  have hmap := congrArg Prod.fst h2
  simp only [List.map_map] at hmap
  constructor
  · have : ∀ {a b : List (List (String × String))},
        a.map (fun pairs => pairs.map pairData) = b.map (fun pairs => pairs.map pairData) →
        a = b := by
      intro a b hab
      induction a generalizing b with
      | nil => cases b with
        | nil => rfl
        | cons _ _ => simp at hab
      | cons x xs ih =>
        cases b with
        | nil => simp at hab
        | cons y ys =>
          simp only [List.map_cons, List.cons.injEq] at hab
          exact by rw [mapPairData_inj hab.1, ih hab.2]
    exact (this (by simpa [Function.comp] using hmap)).symm
  · exact (congrArg Prod.snd h2).symm

/-- Equal pair lists force equal reduced media tuples. -/
theorem mediaPairs_inj {m1 m2 : FoundryMediaAsset}
    (h : mediaPairs m1 = mediaPairs m2) : mediaReduced m1 = mediaReduced m2 := by
  rcases m1 with ⟨aid1, url1, fn1, mt1, sz1⟩
  rcases m2 with ⟨aid2, url2, fn2, mt2, sz2⟩
  rcases aid1 with _ | a1 <;> rcases fn1 with _ | f1 <;> rcases mt1 with _ | t1 <;>
    rcases aid2 with _ | a2 <;> rcases fn2 with _ | f2 <;> rcases mt2 with _ | t2 <;>
    simp_all [mediaPairs, mediaReduced]

/-- Equal pair-list images force equal reduced media lists. -/
theorem mapReduced_of_mapPairs : ∀ {ms1 ms2 : List FoundryMediaAsset},
    ms1.map mediaPairs = ms2.map mediaPairs → ms1.map mediaReduced = ms2.map mediaReduced
  | [], [], _ => rfl
  | [], _ :: _, h => by simp at h
  | _ :: _, [], h => by simp at h
  | x :: xs, y :: ys, h => by
    simp only [List.map_cons, List.cons.injEq] at h ⊢
    exact ⟨mediaPairs_inj h.1, mapReduced_of_mapPairs h.2⟩

/-- The serialized hash basis of the folder-aware hasher determines
every synchronizable field. -/
theorem hashBasis_inj {j1 j2 : FoundryJournal} (h : hashBasis j1 = hashBasis j2) :
    syncFields j1 = syncFields j2 := by
  have hidq : (jsonQuote "id").data = ['"', 'i', 'd', '"'] := by decide
  have hnameq : (jsonQuote "name").data = ['"', 'n', 'a', 'm', 'e', '"'] := by decide
  have haliq : (jsonQuote "aliases").data =
    ['"', 'a', 'l', 'i', 'a', 's', 'e', 's', '"'] := by decide
  have hfpq : (jsonQuote "folderPath").data =
    ['"', 'f', 'o', 'l', 'd', 'e', 'r', 'P', 'a', 't', 'h', '"'] := by decide
  have hupdq : (jsonQuote "updatedAt").data =
    ['"', 'u', 'p', 'd', 'a', 't', 'e', 'd', 'A', 't', '"'] := by decide
  have hcontq : (jsonQuote "content").data =
    ['"', 'c', 'o', 'n', 't', 'e', 'n', 't', '"'] := by decide
  have hmedq : (jsonQuote "media").data = ['"', 'm', 'e', 'd', 'i', 'a', '"'] := by decide
  have hcolon : (":".data) = [':'] := by decide
  have hcomma : (",".data) = [','] := by decide
  have hlb : (lbr : String).data = [lbrChar] := by decide
  have hrb : (rbr : String).data = [rbrChar] := by decide
  have hquote : ∀ s : String, (jsonQuote s).data = jsonQuoteChars s := fun _ => rfl
  have h' := congrArg String.data h
  have hstrip : ∀ {a b : List Char}, (',' :: '"' :: 'c' :: 'o' :: 'n' :: 't' :: 'e' :: 'n' ::
      't' :: '"' :: ':' :: a) = (',' :: '"' :: 'c' :: 'o' :: 'n' :: 't' :: 'e' :: 'n' ::
      't' :: '"' :: ':' :: b) → a = b := by
    intro a b hab
    simpa using hab
  rcases hu1 : j1.updatedAt with _ | u1 <;> rcases hu2 : j2.updatedAt with _ | u2 <;>
    simp only [hashBasis, mediaArrBasis, hu1, hu2, String.data_append, hidq, hnameq, haliq,
      hfpq, hupdq, hcontq, hmedq, hcolon, hcomma, hlb, hrb, hquote, List.cons_append,
      List.append_assoc, List.nil_append, List.singleton_append, List.cons.injEq,
      true_and] at h'
  case none.none =>
    obtain ⟨hid, h'⟩ := jsonQuoteChars_cancel h'
    simp only [List.cons.injEq, true_and] at h'
    obtain ⟨hname, h'⟩ := jsonQuoteChars_cancel h'
    simp only [List.cons.injEq, true_and] at h'
    obtain ⟨hali, h'⟩ := jsonStrArr_cancel h'
    simp only [List.cons.injEq, true_and] at h'
    obtain ⟨hfp, h'⟩ := jsonStrArr_cancel h'
    simp only [List.cons.injEq, true_and] at h'
    obtain ⟨hcont, h'⟩ := jsonQuoteChars_cancel h'
    simp only [List.cons.injEq, true_and] at h'
    have hbr : ("[" ++ joinSep "," ((j1.media.getD []).map mediaBasis) ++ "]").data ++
          [rbrChar] =
        ("[" ++ joinSep "," ((j2.media.getD []).map mediaBasis) ++ "]").data ++ [rbrChar] := by
      have hlb2 : ("[" : String).data = ['['] := by decide
      have hrb2 : ("]" : String).data = [']'] := by decide
      simp only [String.data_append, hlb2, hrb2, List.cons_append, List.append_assoc,
        List.nil_append, List.singleton_append, List.cons.injEq, true_and]
      exact h'
    obtain ⟨hmed, _⟩ := mediaArr_cancel hbr
    simp only [syncFields, SyncFields.mk.injEq]
    exact ⟨hid, hname, hali, hfp, by rw [hu1, hu2], hcont, mapReduced_of_mapPairs hmed⟩
  case some.some =>
    obtain ⟨hid, h'⟩ := jsonQuoteChars_cancel h'
    simp only [List.cons.injEq, true_and] at h'
    obtain ⟨hname, h'⟩ := jsonQuoteChars_cancel h'
    simp only [List.cons.injEq, true_and] at h'
    obtain ⟨hali, h'⟩ := jsonStrArr_cancel h'
    simp only [List.cons.injEq, true_and] at h'
    obtain ⟨hfp, h'⟩ := jsonStrArr_cancel h'
    simp only [List.cons.injEq, true_and] at h'
    obtain ⟨hupd, h'⟩ := jsonQuoteChars_cancel h'
    simp only [List.cons.injEq, true_and] at h'
    obtain ⟨hcont, h'⟩ := jsonQuoteChars_cancel h'
    simp only [List.cons.injEq, true_and] at h'
    have hbr : ("[" ++ joinSep "," ((j1.media.getD []).map mediaBasis) ++ "]").data ++
          [rbrChar] =
        ("[" ++ joinSep "," ((j2.media.getD []).map mediaBasis) ++ "]").data ++ [rbrChar] := by
      have hlb2 : ("[" : String).data = ['['] := by decide
      have hrb2 : ("]" : String).data = [']'] := by decide
      simp only [String.data_append, hlb2, hrb2, List.cons_append, List.append_assoc,
        List.nil_append, List.singleton_append, List.cons.injEq, true_and]
      exact h'
    obtain ⟨hmed, _⟩ := mediaArr_cancel hbr
    simp only [syncFields, SyncFields.mk.injEq]
    exact ⟨hid, hname, hali, hfp, by rw [hu1, hu2, hupd], hcont, mapReduced_of_mapPairs hmed⟩
  case none.some =>
    obtain ⟨hid, h'⟩ := jsonQuoteChars_cancel h'
    simp only [List.cons.injEq, true_and] at h'
    obtain ⟨hname, h'⟩ := jsonQuoteChars_cancel h'
    simp only [List.cons.injEq, true_and] at h'
    obtain ⟨hali, h'⟩ := jsonStrArr_cancel h'
    simp only [List.cons.injEq, true_and] at h'
    obtain ⟨hfp, h'⟩ := jsonStrArr_cancel h'
    simp at h'
  case some.none =>
    obtain ⟨hid, h'⟩ := jsonQuoteChars_cancel h'
    simp only [List.cons.injEq, true_and] at h'
    obtain ⟨hname, h'⟩ := jsonQuoteChars_cancel h'
    simp only [List.cons.injEq, true_and] at h'
    obtain ⟨hali, h'⟩ := jsonStrArr_cancel h'
    simp only [List.cons.injEq, true_and] at h'
    obtain ⟨hfp, h'⟩ := jsonStrArr_cancel h'
    simp at h'

/-- The serialized media object depends only on the reduced tuple. -/
theorem mediaBasis_congr {m1 m2 : FoundryMediaAsset}
    (h : mediaReduced m1 = mediaReduced m2) : mediaBasis m1 = mediaBasis m2 := by
  rcases m1 with ⟨aid1, url1, fn1, mt1, sz1⟩
  rcases m2 with ⟨aid2, url2, fn2, mt2, sz2⟩
  simp only [mediaReduced, Prod.mk.injEq] at h
  obtain ⟨h1, h2, h3, h4⟩ := h
  simp [mediaBasis, h1, h2, h3, h4]

/-- Equal reduced media lists give equal serialized object lists. -/
theorem mapBasis_of_mapReduced : ∀ {ms1 ms2 : List FoundryMediaAsset},
    ms1.map mediaReduced = ms2.map mediaReduced → ms1.map mediaBasis = ms2.map mediaBasis
  | [], [], _ => rfl
  | [], _ :: _, h => by simp at h
  | _ :: _, [], h => by simp at h
  | x :: xs, y :: ys, h => by
    simp only [List.map_cons, List.cons.injEq] at h ⊢
    exact ⟨mediaBasis_congr h.1, mapBasis_of_mapReduced h.2⟩

/-- The folder-aware hash basis depends only on the synchronizable
fields. -/
theorem hashBasis_congr {j1 j2 : FoundryJournal}
    (h : syncFields j1 = syncFields j2) : hashBasis j1 = hashBasis j2 := by
  simp only [syncFields, SyncFields.mk.injEq] at h
  obtain ⟨h1, h2, h3, h4, h5, h6, h7⟩ := h
  simp [hashBasis, mediaArrBasis, h1, h2, h3, h4, h5, h6, mapBasis_of_mapReduced h7]

/-- The legacy hash basis depends only on the fields without the folder
path. -/
theorem hashBasisLegacy_congr {j1 j2 : FoundryJournal}
    (h : legacyFields j1 = legacyFields j2) : hashBasisLegacy j1 = hashBasisLegacy j2 := by
  simp only [legacyFields, syncFields, SyncFields.mk.injEq] at h
  obtain ⟨h1, h2, h3, -, h5, h6, h7⟩ := h
  simp [hashBasisLegacy, mediaArrBasis, h1, h2, h3, h5, h6, mapBasis_of_mapReduced h7]

/-- Claim C3 counterexample: the repository's `src/sync/service.ts`
hasher omits the hierarchical path from the hashed basis, so two
journals identical except for their folder path receive identical
fingerprints, contradicting the claimed "fingerprints differ" for
documents differing only in hierarchical path. -/
theorem claim_C3_counterexample :
    journalFixture.folderPath ≠ journalFixtureMoved.folderPath ∧
    journalFixture.id = journalFixtureMoved.id ∧
    journalFixture.name = journalFixtureMoved.name ∧
    journalFixture.aliases = journalFixtureMoved.aliases ∧
    journalFixture.updatedAt = journalFixtureMoved.updatedAt ∧
    journalFixture.content = journalFixtureMoved.content ∧
    journalFixture.media = journalFixtureMoved.media ∧
    hashJournalLegacy journalFixture = hashJournalLegacy journalFixtureMoved := by
  refine ⟨by decide, rfl, rfl, rfl, rfl, rfl, rfl, ?_⟩
  exact congrArg sha256 (hashBasisLegacy_congr (by decide))

/-- Claim C3 (amended): for the folder-aware hasher (`part_004`), the
serialized hash basis is equal exactly when all synchronizable fields
(identifier, name, aliases, hierarchical path, last-modified stamp, body
content, reduced media list) are equal; equal fields give equal
fingerprints, and different fields give different fingerprints unless
SHA-256 collides on the two bases.  The `src/sync/service.ts` hasher
instead ignores the hierarchical path: journals agreeing on everything
except the path always hash equal there. -/
theorem claim_C3_fingerprint (j1 j2 : FoundryJournal) :
    (hashBasis j1 = hashBasis j2 ↔ syncFields j1 = syncFields j2) ∧
    (syncFields j1 = syncFields j2 → hashJournal j1 = hashJournal j2) ∧
    (syncFields j1 ≠ syncFields j2 → ¬ Sha256Collision (hashBasis j1) (hashBasis j2) →
      hashJournal j1 ≠ hashJournal j2) ∧
    (legacyFields j1 = legacyFields j2 → hashJournalLegacy j1 = hashJournalLegacy j2) := by
  refine ⟨⟨hashBasis_inj, hashBasis_congr⟩, ?_, ?_, ?_⟩
  · intro h
    exact congrArg sha256 (hashBasis_congr h)
  · intro hne hnc heq
    have hbne : hashBasis j1 ≠ hashBasis j2 := fun hb => hne (hashBasis_inj hb)
    exact hnc ⟨hbne, heq⟩
  · intro h
    exact congrArg sha256 (hashBasisLegacy_congr h)

set_option maxRecDepth 16384 in
/-- Claim C3 witness: a concrete instantiation of the fingerprint
theorem, including a genuine SHA-256 evaluation showing the two bases do
not collide. -/
theorem claim_C3_fingerprint_witness :
    hashJournal journalFixture ≠ hashJournal journalFixtureMoved ∧
    hashJournal journalFixture = hashJournal journalFixture ∧
    hashJournalLegacy journalFixture = hashJournalLegacy journalFixtureMoved := by
  refine ⟨(claim_C3_fingerprint journalFixture journalFixtureMoved).2.2.1
      (by decide) (fun hc => absurd hc.2 (by decide)),
    (claim_C3_fingerprint journalFixture journalFixture).2.1 rfl,
    (claim_C3_fingerprint journalFixture journalFixtureMoved).2.2.2 (by decide)⟩

/-! ## Claim C1: conflict detection -/

/-- The `detectConflict` boolean characterized. -/
theorem detectConflict_iff (m : SyncMap) (h : String) (editedAt : Int) :
    detectConflict m h editedAt = true ↔ (m.source_hash ≠ h ∧ editedAt > m.last_synced_at) := by
  unfold detectConflict
  by_cases hs : m.source_hash == h
  · simp [hs]
    intro hne
    exact absurd (beq_iff_eq.mp hs) hne
  · simp [hs]
    exact fun _ => (beq_iff_eq.ne.mp hs)

/-- Claim C1: with both a mapping and a destination match present, the
preview action is `conflict` exactly when the source fingerprint changed
and the destination page was edited strictly after the last sync; an
unchanged fingerprint always yields `update` regardless of the edit
time, and a changed fingerprint with an edit time not after the last
sync also yields `update`.  Both service variants agree. -/
theorem claim_C1_conflict_detection (m : SyncMap) (pid : String) (h : String)
    (editedAt : Int) (hasDb : Bool) :
    (previewAction (some m) (some pid) h editedAt = SyncAction.conflict ↔
      (m.source_hash ≠ h ∧ editedAt > m.last_synced_at)) ∧
    (previewActionLegacy hasDb (some m) (some pid) h editedAt = SyncAction.conflict ↔
      (m.source_hash ≠ h ∧ editedAt > m.last_synced_at)) ∧
    (m.source_hash = h →
      previewAction (some m) (some pid) h editedAt = SyncAction.update ∧
      previewActionLegacy hasDb (some m) (some pid) h editedAt = SyncAction.update) ∧
    (m.source_hash ≠ h → editedAt ≤ m.last_synced_at →
      previewAction (some m) (some pid) h editedAt = SyncAction.update ∧
      previewActionLegacy hasDb (some m) (some pid) h editedAt = SyncAction.update) := by
  have hiff := detectConflict_iff m h editedAt
  refine ⟨?_, ?_, ?_, ?_⟩
  · unfold previewAction
    by_cases hc : detectConflict m h editedAt <;> simp [hc] at hiff ⊢
    · exact hiff
    · intro hne
      have := hiff hne
      omega
  · unfold previewActionLegacy
    by_cases hc : detectConflict m h editedAt <;> simp [hc] at hiff ⊢
    · exact hiff
    · intro hne
      have := hiff hne
      omega
  · intro hs
    have hc : detectConflict m h editedAt = false := by
      rcases Bool.eq_false_or_eq_true (detectConflict m h editedAt) with ht | hf
      · exact absurd (hiff.mp ht).1 (fun hne => hne hs)
      · exact hf
    simp [previewAction, previewActionLegacy, hc]
  · intro hne hle
    have hc : detectConflict m h editedAt = false := by
      rcases Bool.eq_false_or_eq_true (detectConflict m h editedAt) with ht | hf
      · have := (hiff.mp ht).2
        omega
      · exact hf
    simp [previewAction, previewActionLegacy, hc]

/-- Claim C1 witness: the theorem applied at a concrete mapping in all
four regimes. -/
theorem claim_C1_conflict_detection_witness :
    (previewAction
        (some (SyncMap.mk "journal" "J1" "P1" "n" "foundry_to_notion" "h1" "t1" 100 none))
        (some "P1") "h2" 101 = SyncAction.conflict) ∧
    (previewAction
        (some (SyncMap.mk "journal" "J1" "P1" "n" "foundry_to_notion" "h1" "t1" 100 none))
        (some "P1") "h1" 101 = SyncAction.update) ∧
    (previewAction
        (some (SyncMap.mk "journal" "J1" "P1" "n" "foundry_to_notion" "h1" "t1" 100 none))
        (some "P1") "h2" 100 = SyncAction.update) := by
  refine ⟨?_, ?_, ?_⟩
  · exact (claim_C1_conflict_detection _ "P1" "h2" 101 true).1.mpr (by decide)
  · exact ((claim_C1_conflict_detection _ "P1" "h1" 101 true).2.2.1 (by decide)).1
  · exact ((claim_C1_conflict_detection _ "P1" "h2" 100 true).2.2.2 (by decide) (by decide)).1

/-! ## Claim C7: conflict resolution semantics -/

/-- The resolution update leaves rows with other identifiers exactly as
they were. -/
theorem updateList_frame (l : List SyncConflict) (cid : String)
    (st : ResolutionStatus) (notes : String) :
    (l.map (fun c => if c.conflict_id == cid then
        { c with status := st.toStatus, operator_notes := some notes } else c)).filter
      (fun c => ! (c.conflict_id == cid)) =
    l.filter (fun c => ! (c.conflict_id == cid)) := by
  induction l with
  | nil => rfl
  | cons c rest ih =>
    simp only [beq_iff_eq] at ih
    by_cases h : c.conflict_id = cid
    · simp [h, ih]
    · simp [h, ih]

/-- Every row carrying the identifier ends with the written status and
notes after the update. -/
theorem updateList_sets (l : List SyncConflict) (cid : String)
    (st : ResolutionStatus) (notes : String) :
    ∀ c ∈ l.map (fun c => if c.conflict_id == cid then
        { c with status := st.toStatus, operator_notes := some notes } else c),
      c.conflict_id = cid → c.status = st.toStatus ∧ c.operator_notes = some notes := by
  intro c hc hid
  obtain ⟨a, ha, rfl⟩ := List.mem_map.mp hc
  by_cases h : a.conflict_id == cid
  · simp [h]
  · simp [h] at hid
    exact absurd hid (beq_iff_eq.ne.mp (by simpa using h))

/-- The update preserves which identifiers occur. -/
theorem updateList_ids (l : List SyncConflict) (cid : String)
    (st : ResolutionStatus) (notes : String) :
    (l.map (fun c => if c.conflict_id == cid then
        { c with status := st.toStatus, operator_notes := some notes } else c)).any
      (fun c => c.conflict_id == cid) =
    l.any (fun c => c.conflict_id == cid) := by
  induction l with
  | nil => rfl
  | cons c rest ih =>
    simp only [beq_iff_eq] at ih
    by_cases h : c.conflict_id = cid
    · simp [h, ih]
    · simp [h, ih]

/-- Claim C7: `updateConflictResolution` returns whether a row with the
given identifier exists, leaves the store untouched (returning `false`,
not throwing) when none does, only ever rewrites rows carrying the
identifier, lets the second of two resolutions win, and reports a change
again on the second call. -/
theorem claim_C7_resolve_conflict (s : StateStore) (cid : String)
    (st1 st2 : ResolutionStatus) (n1 n2 : String) :
    ((updateConflictResolution s cid st1 n1).2 =
      s.conflicts.any (fun c => c.conflict_id == cid)) ∧
    ((∀ c ∈ s.conflicts, c.conflict_id ≠ cid) →
      updateConflictResolution s cid st1 n1 = (s, false)) ∧
    ((updateConflictResolution s cid st1 n1).1.conflicts.filter
        (fun c => ! (c.conflict_id == cid)) =
      s.conflicts.filter (fun c => ! (c.conflict_id == cid))) ∧
    (∀ c ∈ (updateConflictResolution
        (updateConflictResolution s cid st1 n1).1 cid st2 n2).1.conflicts,
      c.conflict_id = cid → c.status = st2.toStatus ∧ c.operator_notes = some n2) ∧
    ((∃ c ∈ s.conflicts, c.conflict_id = cid) →
      (updateConflictResolution
        (updateConflictResolution s cid st1 n1).1 cid st2 n2).2 = true) := by
  refine ⟨rfl, ?_, updateList_frame s.conflicts cid st1 n1,
    updateList_sets _ cid st2 n2, ?_⟩
  · intro hnone
    have hmap : s.conflicts.map (fun c => if c.conflict_id == cid then
        { c with status := st1.toStatus, operator_notes := some n1 } else c) = s.conflicts := by
      have hcongr : s.conflicts.map (fun c => if c.conflict_id == cid then
          { c with status := st1.toStatus, operator_notes := some n1 } else c) =
          s.conflicts.map id :=
        List.map_congr_left (fun c hc => by simp [beq_eq_false_iff_ne.mpr (hnone c hc)])
      rw [hcongr, List.map_id]
    have hany : s.conflicts.any (fun c => c.conflict_id == cid) = false := by
      rw [List.any_eq_false]
      intro c hc
      simpa using hnone c hc
    unfold updateConflictResolution
    cases s
    simp_all
  · intro ⟨c, hc, hcid⟩
    unfold updateConflictResolution
    simp only [updateList_ids]
    rw [List.any_eq_true]
    exact ⟨c, hc, by simpa using hcid⟩

/-- Claim C7 witness: a concrete store resolved twice and a nonexistent
identifier rejected. -/
theorem claim_C7_resolve_conflict_witness :
    (updateConflictResolution (StateStore.mk [] [SyncConflict.mk "c1" "J1" "P1" "s" "t"
        "h1" "h2" ConflictStatus.open none] [] []) "missing"
        ResolutionStatus.resolved "n").2 = false ∧
    (∀ c ∈ (updateConflictResolution
        (updateConflictResolution (StateStore.mk [] [SyncConflict.mk "c1" "J1" "P1" "s" "t"
          "h1" "h2" ConflictStatus.open none] [] []) "c1"
          ResolutionStatus.resolved "first").1 "c1" ResolutionStatus.ignored "second").1.conflicts,
      c.conflict_id = "c1" → c.status = ConflictStatus.ignored ∧
        c.operator_notes = some "second") ∧
    (updateConflictResolution
        (updateConflictResolution (StateStore.mk [] [SyncConflict.mk "c1" "J1" "P1" "s" "t"
          "h1" "h2" ConflictStatus.open none] [] []) "c1"
          ResolutionStatus.resolved "first").1 "c1" ResolutionStatus.ignored "second").2 = true := by
  refine ⟨?_, ?_, ?_⟩
  · have h := (claim_C7_resolve_conflict (StateStore.mk [] [SyncConflict.mk "c1" "J1" "P1"
      "s" "t" "h1" "h2" ConflictStatus.open none] [] []) "missing"
      ResolutionStatus.resolved ResolutionStatus.resolved "n" "n").2.1 (by decide)
    rw [h]
  · exact (claim_C7_resolve_conflict (StateStore.mk [] [SyncConflict.mk "c1" "J1" "P1"
      "s" "t" "h1" "h2" ConflictStatus.open none] [] []) "c1"
      ResolutionStatus.resolved ResolutionStatus.ignored "first" "second").2.2.2.1
  · exact (claim_C7_resolve_conflict (StateStore.mk [] [SyncConflict.mk "c1" "J1" "P1"
      "s" "t" "h1" "h2" ConflictStatus.open none] [] []) "c1"
      ResolutionStatus.resolved ResolutionStatus.ignored "first" "second").2.2.2.2
      ⟨SyncConflict.mk "c1" "J1" "P1" "s" "t" "h1" "h2" ConflictStatus.open none,
        by simp, rfl⟩

/-! ## Claim C9: freshly generated conflict identifiers accumulate -/

/-- Distinct uuids give distinct generated identifiers. -/
theorem newId_inj {pre u1 u2 : String} (h : newId pre u1 = newId pre u2) : u1 = u2 := by
  unfold newId at h
  have h' := congrArg String.data h
  simp only [String.data_append] at h'
  exact strData_inj (List.append_cancel_left h')

/-- Inserting a conflict whose identifier is fresh appends it. -/
theorem insertConflict_fresh (s : StateStore) (c : SyncConflict)
    (hfresh : ∀ x ∈ s.conflicts, x.conflict_id ≠ c.conflict_id) :
    (insertConflict s c).conflicts = s.conflicts ++ [c] := by
  unfold insertConflict
  have : s.conflicts.filter (fun x => ¬ x.conflict_id == c.conflict_id) = s.conflicts := by
    rw [List.filter_eq_self]
    intro x hx
    simpa using hfresh x hx
  rw [this]

/-- Claim C9: `buildConflict` stamps each conflict with a freshly
generated identifier, so two apply passes that each detect a conflict
for the same source document insert two distinct open rows; the
insert-or-replace keyed by conflict id appends rather than coalesces,
and both rows are visible among the open conflicts until resolved. -/
theorem claim_C9_conflicts_accumulate (s : StateStore) (j : FoundryJournal) (pid : String)
    (map1 map2 : Option SyncMap) (u1 u2 : String) (e1 e2 t1 t2 : Int)
    (hu : u1 ≠ u2)
    (hfresh : ∀ x ∈ s.conflicts, x.conflict_id ≠ newId "conflict" u1 ∧
      x.conflict_id ≠ newId "conflict" u2) :
    (buildConflict j pid map1 u1 e1 t1).conflict_id ≠
      (buildConflict j pid map2 u2 e2 t2).conflict_id ∧
    (insertConflict (insertConflict s (buildConflict j pid map1 u1 e1 t1))
        (buildConflict j pid map2 u2 e2 t2)).conflicts =
      s.conflicts ++ [buildConflict j pid map1 u1 e1 t1, buildConflict j pid map2 u2 e2 t2] ∧
    (buildConflict j pid map1 u1 e1 t1).status = ConflictStatus.open ∧
    (buildConflict j pid map2 u2 e2 t2).status = ConflictStatus.open ∧
    buildConflict j pid map1 u1 e1 t1 ∈
      listConflicts (insertConflict (insertConflict s (buildConflict j pid map1 u1 e1 t1))
        (buildConflict j pid map2 u2 e2 t2)) (ConflictFilter.only ConflictStatus.open) ∧
    buildConflict j pid map2 u2 e2 t2 ∈
      listConflicts (insertConflict (insertConflict s (buildConflict j pid map1 u1 e1 t1))
        (buildConflict j pid map2 u2 e2 t2)) (ConflictFilter.only ConflictStatus.open) := by
  have hne : (buildConflict j pid map1 u1 e1 t1).conflict_id ≠
      (buildConflict j pid map2 u2 e2 t2).conflict_id := by
    intro hid
    exact hu (newId_inj hid)
  have h1 : (insertConflict s (buildConflict j pid map1 u1 e1 t1)).conflicts =
      s.conflicts ++ [buildConflict j pid map1 u1 e1 t1] :=
    insertConflict_fresh s _ (fun x hx => (hfresh x hx).1)
  have h2 : (insertConflict (insertConflict s (buildConflict j pid map1 u1 e1 t1))
      (buildConflict j pid map2 u2 e2 t2)).conflicts =
      s.conflicts ++ [buildConflict j pid map1 u1 e1 t1, buildConflict j pid map2 u2 e2 t2] := by
    rw [insertConflict_fresh _ _ (fun x hx => by
      rw [h1] at hx
      rcases List.mem_append.mp hx with hx1 | hx2
      · exact (hfresh x hx1).2
      · simp at hx2
        rw [hx2]
        exact hne), h1]
    simp
  refine ⟨hne, h2, rfl, rfl, ?_, ?_⟩ <;>
  · rw [listConflicts]
    rw [List.mem_mergeSort]
    rw [List.mem_filter]
    refine ⟨by rw [h2]; simp, by simp [buildConflict]⟩

/-- Claim C9 witness: two conflicts built from distinct uuids inserted
into an empty store. -/
theorem claim_C9_conflicts_accumulate_witness :
    (insertConflict (insertConflict (StateStore.mk [] [] [] [])
        (buildConflict journalFixture "P1" none "u1" 5 6))
        (buildConflict journalFixture "P1" none "u2" 7 8)).conflicts =
      [buildConflict journalFixture "P1" none "u1" 5 6,
       buildConflict journalFixture "P1" none "u2" 7 8] := by
  have h := claim_C9_conflicts_accumulate (StateStore.mk [] [] [] []) journalFixture "P1"
    none none "u1" "u2" 5 7 6 8 (by decide) (by intro x hx; simp at hx)
  simpa using h.2.1

/-! ## Claim C6: storage filename and extension precedence -/

/-- Claim C6 counterexample: with both a declared MIME type and a dotted
filename present, the implementation takes the filename's extension,
while the specified precedence (MIME first) would take the MIME-derived
one. -/
theorem claim_C6_counterexample :
    extensionFromMimeOrName (some "image/png") (some "photo.jpg") = "jpg" ∧
    extensionSpecMimeFirst (some "image/png") (some "photo.jpg") = "png" ∧
    ("jpg" : String) ≠ "png" := by
  refine ⟨by decide, by decide, by decide⟩

/-- Claim C6 (amended): the stored filename is the content checksum plus
a best-guess extension, but the precedence is filename extension first
(the declared MIME type is ignored whenever the filename has a dot),
MIME-type probing second, and the generic `bin` default last. -/
theorem claim_C6_storage_extension :
    (∀ (f : String) (mt1 mt2 : Option String), f ≠ "" → f.data.contains '.' = true →
      extensionFromMimeOrName mt1 (some f) = extensionFromMimeOrName mt2 (some f)) ∧
    (∀ m : String, m ≠ "" → strIncludes (lowerStr m) "png" = true →
      extensionFromMimeOrName (some m) none = "png") ∧
    (∀ (mt : Option String) (f : String), f.data.contains '.' = false →
      extensionFromMimeOrName mt (some f) = extensionFromMimeOrName mt none) ∧
    (extensionFromMimeOrName none none = "bin") ∧
    (∀ (fetch : FetchEnv) (cfg : MediaCfg) (now : Int) (asset : FoundryMediaAsset)
      (w : World) (dl : FetchResult),
      downloadAsset fetch asset = Except.ok dl → asset.sourceUrl ≠ "" →
      ∃ (r : MediaCopyResult) (w2 : World),
        copyAll fetch cfg now [asset] w = (Except.ok [r], w2) ∧
        r.checksum = sha256Bytes dl.bytes ∧
        r.storedPath = cfg.mediaDir ++ "/" ++ (sha256Bytes dl.bytes ++ "." ++
          extensionFromMimeOrName (asset.mimeType <|> dl.mimeType)
            (asset.filename <|> some (filenameFromUrl asset.sourceUrl)))) := by
  refine ⟨?_, ?_, ?_, by decide, ?_⟩
  · intro f mt1 mt2 hne hdot
    have hmem : '.' ∈ f.data := by simpa using hdot
    simp [extensionFromMimeOrName, hne, hmem]
  · intro m hne hpng
    simp [extensionFromMimeOrName, extensionFromMimeOrName.extensionFromMime, hne, hpng]
  · intro mt f hdot
    by_cases hf : f = ""
    · simp [extensionFromMimeOrName, hf]
    · have hmem : ¬ ('.' ∈ f.data) := by simpa using hdot
      simp [extensionFromMimeOrName, hf, hmem]
  · intro fetch cfg now asset w dl hd hurl
    have hskip : ((asset.sourceUrl == "") &&
        (match asset.assetId with | none => true | some a => a == "")) = false := by
      simp [beq_eq_false_iff_ne.mpr hurl]
    rw [copyAll.eq_def]
    simp only [hskip, Bool.false_eq_true, if_false, hd]
    exact ⟨_, _, rfl, rfl, rfl⟩

/-- Claim C6 witness: concrete instantiations of the precedence theorem,
including a run of the pipeline on one downloaded asset. -/
theorem claim_C6_storage_extension_witness :
    (extensionFromMimeOrName (some "image/png") (some "photo.jpg") =
      extensionFromMimeOrName none (some "photo.jpg")) ∧
    (extensionFromMimeOrName (some "IMAGE/PNG") none = "png") ∧
    (∃ (r : MediaCopyResult) (w2 : World),
      copyAll (fun _ => Except.ok (FetchResult.mk [104, 105] (some "image/png") "final"))
        (MediaCfg.mk "media" none) 0 [FoundryMediaAsset.mk none "http://x/a" none none none]
        (World.mk (StateStore.mk [] [] [] []) (NotionState.mk [] 0) [] []) =
        (Except.ok [r], w2) ∧
      r.checksum = sha256Bytes [104, 105] ∧
      r.storedPath = "media" ++ "/" ++ (sha256Bytes [104, 105] ++ "." ++
        extensionFromMimeOrName
          ((FoundryMediaAsset.mk none "http://x/a" none none none).mimeType <|>
            (FetchResult.mk [104, 105] (some "image/png") "final").mimeType)
          ((FoundryMediaAsset.mk none "http://x/a" none none none).filename <|>
            some (filenameFromUrl "http://x/a")))) := by
  refine ⟨claim_C6_storage_extension.1 "photo.jpg" (some "image/png") none
      (by decide) (by decide),
    claim_C6_storage_extension.2.1 "IMAGE/PNG" (by decide) (by decide),
    claim_C6_storage_extension.2.2.2.2
      (fun _ => Except.ok (FetchResult.mk [104, 105] (some "image/png") "final"))
      (MediaCfg.mk "media" none) 0 (FoundryMediaAsset.mk none "http://x/a" none none none)
      (World.mk (StateStore.mk [] [] [] []) (NotionState.mk [] 0) [] [])
      (FetchResult.mk [104, 105] (some "image/png") "final") rfl (by decide)⟩

/-! ## Claim C5: content-addressed media storage -/

/-- Claim C5 counterexample: two references with identical downloaded
bytes but different filename extensions store two distinct files, even
though the checksums agree — the storage path is the checksum plus the
extension, not the checksum alone. -/
theorem claim_C5_counterexample :
    (copyAll (fun u => Except.ok (FetchResult.mk [1, 2, 3] none u))
      (MediaCfg.mk "media" none) 0
      [FoundryMediaAsset.mk none "http://x/p.png" none none none,
       FoundryMediaAsset.mk none "http://x/p.jpg" none none none]
      (World.mk (StateStore.mk [] [] [] []) (NotionState.mk [] 0) [] [])).2.mediaFiles.length
      = 2 ∧
    (∀ f1 ∈ (copyAll (fun u => Except.ok (FetchResult.mk [1, 2, 3] none u))
      (MediaCfg.mk "media" none) 0
      [FoundryMediaAsset.mk none "http://x/p.png" none none none,
       FoundryMediaAsset.mk none "http://x/p.jpg" none none none]
      (World.mk (StateStore.mk [] [] [] []) (NotionState.mk [] 0) [] [])).2.mediaFiles,
      f1.2 = [1, 2, 3]) := by
  refine ⟨by decide, by decide⟩

/-- Claim C5 (amended): identical downloaded byte content always yields
identical checksums, and when the derived extensions also agree the two
references resolve to the same storage path, with at most one stored
file ever created for it (the file is written only if absent); distinct
derived extensions, as in the counterexample, may duplicate the byte
content under two paths. -/
theorem claim_C5_media_dedup (fetch : FetchEnv) (cfg : MediaCfg) (now : Int)
    (a1 a2 : FoundryMediaAsset) (w : World) (dl1 dl2 : FetchResult)
    (hd1 : downloadAsset fetch a1 = Except.ok dl1)
    (hd2 : downloadAsset fetch a2 = Except.ok dl2)
    (hu1 : a1.sourceUrl ≠ "") (hu2 : a2.sourceUrl ≠ "")
    (hb : dl1.bytes = dl2.bytes) :
    ∃ (r1 r2 : MediaCopyResult) (w2 : World),
      copyAll fetch cfg now [a1, a2] w = (Except.ok [r1, r2], w2) ∧
      r1.checksum = r2.checksum ∧
      (extensionFromMimeOrName (a1.mimeType <|> dl1.mimeType)
          (a1.filename <|> some (filenameFromUrl a1.sourceUrl)) =
        extensionFromMimeOrName (a2.mimeType <|> dl2.mimeType)
          (a2.filename <|> some (filenameFromUrl a2.sourceUrl)) →
        r1.storedPath = r2.storedPath ∧
        w2.mediaFiles = (if w.mediaFiles.any (fun f => f.1 == r1.storedPath) then
          w.mediaFiles else w.mediaFiles ++ [(r1.storedPath, dl1.bytes)])) := by
  have hskip1 : ((a1.sourceUrl == "") &&
      (match a1.assetId with | none => true | some a => a == "")) = false := by
    simp [beq_eq_false_iff_ne.mpr hu1]
  have hskip2 : ((a2.sourceUrl == "") &&
      (match a2.assetId with | none => true | some a => a == "")) = false := by
    simp [beq_eq_false_iff_ne.mpr hu2]
  rw [copyAll.eq_def]
  simp only [hskip1, Bool.false_eq_true, if_false, hd1]
  rw [copyAll.eq_def]
  simp only [hskip2, Bool.false_eq_true, if_false, hd2]
  rw [copyAll.eq_def]
  refine ⟨_, _, _, rfl, by rw [hb], ?_⟩
  intro hext
  constructor
  · simp only [hb, hext]
  · by_cases hpre : w.mediaFiles.any (fun f =>
      f.1 == cfg.mediaDir ++ "/" ++ (sha256Bytes dl1.bytes ++ "." ++
        extensionFromMimeOrName (a1.mimeType <|> dl1.mimeType)
          (a1.filename <|> some (filenameFromUrl a1.sourceUrl)))) = true
    · simp only [hpre, if_true, hb, hext] at *
      simp [hpre]
    · have hpre' := Bool.eq_false_iff.mpr (fun hx => hpre hx)
      simp only [hpre', if_false, hb, hext] at *
      simp [hpre', List.any_append]

/-- Claim C5 witness: the dedup theorem run on two references to the
same URL, with equal derived extensions. -/
theorem claim_C5_media_dedup_witness :
    ∃ (r1 r2 : MediaCopyResult) (w2 : World),
      copyAll (fun u => Except.ok (FetchResult.mk [9, 9] none u))
        (MediaCfg.mk "media" none) 0
        [FoundryMediaAsset.mk none "http://x/p.png" none none none,
         FoundryMediaAsset.mk (some "asset2") "http://y/q.png" none none none]
        (World.mk (StateStore.mk [] [] [] []) (NotionState.mk [] 0) [] []) =
        (Except.ok [r1, r2], w2) ∧
      r1.checksum = r2.checksum ∧
      (extensionFromMimeOrName none (some (filenameFromUrl "http://x/p.png")) =
        extensionFromMimeOrName none (some (filenameFromUrl "http://y/q.png")) →
        r1.storedPath = r2.storedPath ∧
        w2.mediaFiles = (if ([] : List (String × List Nat)).any
            (fun f => f.1 == r1.storedPath) then
          ([] : List (String × List Nat)) else [] ++ [(r1.storedPath, [9, 9])])) := by
  exact claim_C5_media_dedup (fun u => Except.ok (FetchResult.mk [9, 9] none u))
    (MediaCfg.mk "media" none) 0
    (FoundryMediaAsset.mk none "http://x/p.png" none none none)
    (FoundryMediaAsset.mk (some "asset2") "http://y/q.png" none none none)
    (World.mk (StateStore.mk [] [] [] []) (NotionState.mk [] 0) [] [])
    (FetchResult.mk [9, 9] none "http://x/p.png")
    (FetchResult.mk [9, 9] none "/assets/asset2")
    rfl rfl (by decide) (by decide) rfl

/-! ## Claim C4: media fetch failure handling -/

/-- Claim C4 counterexample: with a batch of two assets whose first
download fails, `copyAll` propagates the error: the second asset is
never processed, no file is stored, no media record is written, and no
partial media list is returned — the failure is not isolated to the
failing asset. -/
theorem claim_C4_counterexample :
    copyAll (fun u => if u == "http://bad" then Except.error "boom"
        else Except.ok (FetchResult.mk [7] none u))
      (MediaCfg.mk "media" none) 0
      [FoundryMediaAsset.mk none "http://bad" none none none,
       FoundryMediaAsset.mk none "http://good/ok.png" none none none]
      (World.mk (StateStore.mk [] [] [] []) (NotionState.mk [] 0) [] []) =
      (Except.error "Failed to download asset. Last error: boom",
       World.mk (StateStore.mk [] [] [] []) (NotionState.mk [] 0) [] []) := by
  rfl

/-- Claim C4 (amended): once every candidate URL of one asset fails, the
error aborts the whole `copyAll` batch — the world is returned exactly
as it was at that point and the remaining assets are not touched; the
only per-asset tolerance is inside `downloadAsset`, where a failing
asset-id route falls back to the source URL. -/
theorem claim_C4_media_failure (fetch : FetchEnv) (cfg : MediaCfg) (now : Int)
    (a : FoundryMediaAsset) (rest : List FoundryMediaAsset) (w : World)
    (hurl : a.sourceUrl ≠ "") :
    (∀ e : String, downloadAsset fetch a = Except.error e →
      copyAll fetch cfg now (a :: rest) w = (Except.error e, w)) ∧
    (∀ (aid : String) (r : FetchResult) (e2 : String),
      a.assetId = some aid → aid ≠ "" →
      fetch ("/assets/" ++ aid) = Except.error e2 →
      fetch a.sourceUrl = Except.ok r →
      downloadAsset fetch a = Except.ok { r with mimeType := r.mimeType <|> a.mimeType }) := by
  constructor
  · intro e hd
    have hskip : ((a.sourceUrl == "") &&
        (match a.assetId with | none => true | some x => x == "")) = false := by
      simp [beq_eq_false_iff_ne.mpr hurl]
    rw [copyAll.eq_def]
    simp only [hskip, Bool.false_eq_true, if_false, hd]
  · intro aid r e2 haid hne hfail hok
    unfold downloadAsset
    rw [haid]
    simp [tryCandidates, hfail, hok, hne, hurl]


/-- Claim C4 witness: the abort applied to an asset whose only route
fails, and the candidate fallback applied to an asset whose id route
fails while its source URL succeeds. -/
theorem claim_C4_media_failure_witness :
    copyAll (fun _ => Except.error "down") (MediaCfg.mk "media" none) 0
      [FoundryMediaAsset.mk none "http://only" none none none,
       FoundryMediaAsset.mk none "http://rest" none none none]
      (World.mk (StateStore.mk [] [] [] []) (NotionState.mk [] 0) [] []) =
      (Except.error "Failed to download asset. Last error: down",
       World.mk (StateStore.mk [] [] [] []) (NotionState.mk [] 0) [] []) ∧
    downloadAsset
      (fun u => if u == "http://okurl" then Except.ok (FetchResult.mk [3] none u)
        else Except.error "bad id route")
      (FoundryMediaAsset.mk (some "A1") "http://okurl" none none none) =
      Except.ok (FetchResult.mk [3] none "http://okurl") := by
  refine ⟨?_, ?_⟩
  · exact (claim_C4_media_failure (fun _ => Except.error "down") (MediaCfg.mk "media" none)
      0 (FoundryMediaAsset.mk none "http://only" none none none)
      [FoundryMediaAsset.mk none "http://rest" none none none]
      (World.mk (StateStore.mk [] [] [] []) (NotionState.mk [] 0) [] [])
      (by decide)).1 "Failed to download asset. Last error: down" rfl
  · exact (claim_C4_media_failure
      (fun u => if u == "http://okurl" then Except.ok (FetchResult.mk [3] none u)
        else Except.error "bad id route")
      (MediaCfg.mk "media" none) 0
      (FoundryMediaAsset.mk (some "A1") "http://okurl" none none none) []
      (World.mk (StateStore.mk [] [] [] []) (NotionState.mk [] 0) [] [])
      (by decide)).2 "A1" (FetchResult.mk [3] none "http://okurl") "bad id route"
      rfl (by decide) rfl rfl

/-! ## Claim C10: the 200-document limit -/

/-- Claim C10 counterexample: served through the socket proxy by the
Foundry module — which ignores the `limit` parameter the engine sends —
a world of 201 journals makes the engine consider all 201 documents in
one run, not at most 200. -/
theorem claim_C10_counterexample :
    ¬ ((loadJournals (fenvOfServer
        (moduleServer ((List.range 201).map
          (fun n => FoundryJournalSummary.mk (natToString n) "n" none none none none)))
        (fun i => FoundryJournal.mk i "n" none none none none "" none none)
        (some [])) none).length ≤ 200) := by
  have hlen : (loadJournals (fenvOfServer
      (moduleServer ((List.range 201).map
        (fun n => FoundryJournalSummary.mk (natToString n) "n" none none none none)))
      (fun i => FoundryJournal.mk i "n" none none none none "" none none)
      (some [])) none).length = 201 := by
    simp [loadJournals, fenvOfServer, clientListJournals, moduleServer]
  omega

/-- Claim C10 (amended): the engine always requests summaries with a
fixed limit of 200; when the mock API server answers, the limit is
enforced and at most 200 documents are considered, namely exactly the
first 200 fixture entries; when the Foundry module answers through the
proxy, the limit is ignored and every journal in the world is
considered. -/
theorem claim_C10_journal_limit (fixture worldJournals : List FoundryJournalSummary)
    (getJ : String → FoundryJournal) (folders : Option (List FoundryFolder)) :
    ((loadJournals (fenvOfServer (mockServer fixture) getJ folders) none).length ≤ 200) ∧
    (loadJournals (fenvOfServer (mockServer fixture) getJ folders) none =
      (fixture.take 200).map (fun s =>
        attachFolderPath (fenvOfServer (mockServer fixture) getJ folders)
          (fixture.take 200) (folders.getD []) s.id)) ∧
    (loadJournals (fenvOfServer (moduleServer worldJournals) getJ folders) none =
      worldJournals.map (fun s =>
        attachFolderPath (fenvOfServer (moduleServer worldJournals) getJ folders)
          worldJournals (folders.getD []) s.id)) := by
  refine ⟨?_, ?_, ?_⟩
  · simp [loadJournals, fenvOfServer, clientListJournals, mockServer]
  · simp [loadJournals, fenvOfServer, clientListJournals, mockServer]
  · simp [loadJournals, fenvOfServer, clientListJournals, moduleServer]

/-! ## Claim C8: preview makes no mutation -/

set_option linter.unnecessarySeqFocus false in
/-- The preview loop returns the world exactly as it received it. -/
theorem previewItems_world (nenv : NotionEnv) :
    ∀ (js : List FoundryJournal) (w : World), (previewItems nenv js w).2 = w := by
  intro js
  induction js with
  | nil => intro w; rfl
  | cons j rest ih =>
    intro w
    cases hm : getSyncMap w.store j.id <;>
      cases hp : nenv.findPage j.name (j.aliases.getD []) (j.folderPath.getD []) <;>
      simp [previewItems, findPageW, getSyncMapW, getPageLastEditedW, hm, hp, ih] <;>
      split_ifs <;> simp [ih]

/-- Claim C8: `preview` mutates nothing — the state store relations, the
destination pages, the audit log and the media directory all come back
exactly as they were, for every input. -/
theorem claim_C8_preview_pure (fenv : FoundryEnv) (nenv : NotionEnv)
    (journalIds : Option (List String)) (w : World) :
    (preview fenv nenv journalIds w).2 = w ∧
    (preview fenv nenv journalIds w).2.store.syncMaps = w.store.syncMaps ∧
    (preview fenv nenv journalIds w).2.store.conflicts = w.store.conflicts ∧
    (preview fenv nenv journalIds w).2.store.mediaMaps = w.store.mediaMaps ∧
    (preview fenv nenv journalIds w).2.store.runs = w.store.runs ∧
    (preview fenv nenv journalIds w).2.notion = w.notion ∧
    (preview fenv nenv journalIds w).2.audit = w.audit ∧
    (preview fenv nenv journalIds w).2.mediaFiles = w.mediaFiles := by
  have h : (preview fenv nenv journalIds w).2 = w := by
    unfold preview
    exact previewItems_world nenv (loadJournals fenv journalIds) w
  exact ⟨h, by rw [h], by rw [h], by rw [h], by rw [h], by rw [h], by rw [h], by rw [h]⟩

/-! ## Claim C2: the generated-region rewrite and apply idempotence -/

/-- Reading back the blocks just written, provided the page exists. -/
theorem pageBlocks_set (ns : NotionState) (pid : String) (bs : List (Nat × NBlock))
    (h : ns.pages.any (fun p => p.pageId == pid) = true) :
    pageBlocks (setPageBlocks ns pid bs) pid = bs := by
  have hpf : ((fun p => p.pageId == pid) ∘ (fun p : NotionPage =>
      if p.pageId == pid then { p with blocks := bs } else p)) =
      (fun p : NotionPage => p.pageId == pid) := by
    funext p
    by_cases hp : p.pageId = pid <;> simp [Function.comp, hp]
  show (match (ns.pages.map (fun p =>
      if p.pageId == pid then { p with blocks := bs } else p)).find?
      (fun p => p.pageId == pid) with
    | some p => p.blocks
    | none => []) = bs
  rw [List.find?_map, hpf]
  rcases hf : ns.pages.find? (fun p => p.pageId == pid) with _ | p0
  · rw [List.find?_eq_none] at hf
    obtain ⟨x, hx, hpx⟩ := List.any_eq_true.mp h
    exact absurd hpx (by simp [hf x hx])
  · have hp0 := List.find?_some hf
    simp [hf, beq_iff_eq.mp hp0]

/-- Writing blocks does not change which pages exist. -/
theorem setPageBlocks_any (ns : NotionState) (pid pid2 : String) (bs : List (Nat × NBlock)) :
    (setPageBlocks ns pid bs).pages.any (fun p => p.pageId == pid2) =
      ns.pages.any (fun p => p.pageId == pid2) := by
  have hpf : ((fun p => p.pageId == pid2) ∘ (fun p : NotionPage =>
      if p.pageId == pid then { p with blocks := bs } else p)) =
      (fun p : NotionPage => p.pageId == pid2) := by
    funext p
    by_cases hp : p.pageId = pid <;> simp [Function.comp, hp]
  show (ns.pages.map (fun p =>
      if p.pageId == pid then { p with blocks := bs } else p)).any
      (fun p => p.pageId == pid2) = ns.pages.any (fun p => p.pageId == pid2)
  rw [List.any_map, hpf]

/-- Deleting a block filters it out of every page's block list. -/
theorem pageBlocks_delete (ns : NotionState) (bid : Nat) (pid : String) :
    pageBlocks (deleteBlock ns bid) pid =
      (pageBlocks ns pid).filter (fun b => ¬ b.1 == bid) := by
  show (match (ns.pages.map (fun p =>
      { p with blocks := p.blocks.filter (fun b => ¬ b.1 == bid) })).find?
      (fun p => p.pageId == pid) with
    | some p => p.blocks
    | none => []) = (pageBlocks ns pid).filter (fun b => ¬ b.1 == bid)
  rw [List.find?_map]
  show (match Option.map (fun p : NotionPage =>
      ({ p with blocks := p.blocks.filter (fun b => ¬ b.1 == bid) } : NotionPage))
      (ns.pages.find? (fun p => p.pageId == pid)) with
    | some p => p.blocks
    | none => []) = (pageBlocks ns pid).filter (fun b => ¬ b.1 == bid)
  unfold pageBlocks
  rcases hf : ns.pages.find? (fun p => p.pageId == pid) with _ | p0 <;> simp [hf]

/-- Deleting a block does not change which pages exist. -/
theorem deleteBlock_any (ns : NotionState) (bid : Nat) (pid : String) :
    (deleteBlock ns bid).pages.any (fun p => p.pageId == pid) =
      ns.pages.any (fun p => p.pageId == pid) := by
  show (ns.pages.map (fun p : NotionPage =>
      ({ p with blocks := p.blocks.filter (fun b => ¬ b.1 == bid) } : NotionPage))).any
      (fun p => p.pageId == pid) = ns.pages.any (fun p => p.pageId == pid)
  rw [List.any_map]
  rfl

/-- Two filters over the same list commute. -/
theorem filter_swap {α : Type} (p q : α → Bool) (l : List α) :
    (l.filter q).filter p = (l.filter p).filter q := by
  simp only [List.filter_filter]
  exact List.filter_congr (fun a _ => by rw [Bool.and_comm])

/-- Core of `upsertFoundryMirror` with no previous container: leaves the
page's generated-region blocks equal to the old ones plus one fresh
container carrying the payload, allocates the container id at or above
the old allocation counter, bumps the counter past it, and keeps the
set of pages. -/
theorem upsertFoundryMirror_core (ns : NotionState) (pid : String)
    (payload : MirrorPayload) (t : Int)
    (hpage : ns.pages.any (fun p => p.pageId == pid) = true) :
    (pageBlocks (upsertFoundryMirror ns pid payload none t).1 pid).filter
        (fun b => b.2.isMirror) =
      (pageBlocks ns pid).filter (fun b => b.2.isMirror)
      ++ [((upsertFoundryMirror ns pid payload none t).2,
           NBlock.mirror ("Foundry Mirror (auto) - " ++ isoString t) payload)] ∧
    ns.nextBlockId ≤ (upsertFoundryMirror ns pid payload none t).2 ∧
    (upsertFoundryMirror ns pid payload none t).1.nextBlockId =
      (upsertFoundryMirror ns pid payload none t).2 + 1 ∧
    (∀ pid2, (upsertFoundryMirror ns pid payload none t).1.pages.any
        (fun p => p.pageId == pid2) =
      ns.pages.any (fun p => p.pageId == pid2)) := by
  by_cases hh : ((pageBlocks ns pid).take 100).any (fun b => isMirrorHeading b.2) = true
  · simp only [upsertFoundryMirror]
    rw [if_pos hh]
    dsimp only
    refine ⟨?_, Nat.le_refl _, rfl, ?_⟩
    · rw [pageBlocks_set ({ ns with nextBlockId := ns.nextBlockId + 1 }) pid _ hpage]
      simp [List.filter_append, NBlock.isMirror]
    · intro pid2
      exact setPageBlocks_any _ _ _ _
  · simp only [upsertFoundryMirror]
    rw [if_neg hh]
    dsimp only
    have hpage2 : (setPageBlocks { ns with nextBlockId := ns.nextBlockId + 1 } pid
        (pageBlocks ns pid ++ [(ns.nextBlockId, NBlock.heading "Foundry Mirror")])).pages.any
        (fun p => p.pageId == pid) = true := by
      rw [setPageBlocks_any]
      exact hpage
    have hb2 := pageBlocks_set ({ ns with nextBlockId := ns.nextBlockId + 1 }) pid
        (pageBlocks ns pid ++ [(ns.nextBlockId, NBlock.heading "Foundry Mirror")]) hpage
    refine ⟨?_, Nat.le_succ _, rfl, ?_⟩
    · rw [pageBlocks_set ({ (setPageBlocks ({ ns with nextBlockId := ns.nextBlockId + 1 }) pid
          (pageBlocks ns pid ++ [(ns.nextBlockId, NBlock.heading "Foundry Mirror")])) with
          nextBlockId := ns.nextBlockId + 1 + 1 }) pid _ hpage2, hb2]
      simp [List.filter_append, NBlock.isMirror, isMirrorHeading]
    · intro pid2
      rw [setPageBlocks_any, setPageBlocks_any]

/-- Full behaviour of `upsertFoundryMirror`: the surviving generated-region
blocks are the old ones minus the recorded previous container, plus one
fresh container with the new payload; the container id is fresh with
respect to the allocation counter. -/
theorem upsertFoundryMirror_spec (ns : NotionState) (pid : String)
    (payload : MirrorPayload) (prev : Option Nat) (t : Int)
    (hpage : ns.pages.any (fun p => p.pageId == pid) = true) :
    (pageBlocks (upsertFoundryMirror ns pid payload prev t).1 pid).filter
        (fun b => b.2.isMirror) =
      ((pageBlocks ns pid).filter (fun b => b.2.isMirror)).filter
        (fun b => match prev with
          | some b0 => ¬ b.1 == b0
          | none => true)
      ++ [((upsertFoundryMirror ns pid payload prev t).2,
           NBlock.mirror ("Foundry Mirror (auto) - " ++ isoString t) payload)] ∧
    ns.nextBlockId ≤ (upsertFoundryMirror ns pid payload prev t).2 ∧
    (upsertFoundryMirror ns pid payload prev t).1.nextBlockId =
      (upsertFoundryMirror ns pid payload prev t).2 + 1 ∧
    (∀ pid2, (upsertFoundryMirror ns pid payload prev t).1.pages.any
        (fun p => p.pageId == pid2) =
      ns.pages.any (fun p => p.pageId == pid2)) := by
  cases prev with
  | none =>
    obtain ⟨h1, h2, h3, h4⟩ := upsertFoundryMirror_core ns pid payload t hpage
    refine ⟨?_, h2, h3, h4⟩
    rw [h1]
    simp
  | some b0 =>
    have heq : upsertFoundryMirror ns pid payload (some b0) t =
        upsertFoundryMirror (deleteBlock ns b0) pid payload none t := rfl
    have hpage2 : (deleteBlock ns b0).pages.any (fun p => p.pageId == pid) = true := by
      rw [deleteBlock_any]
      exact hpage
    obtain ⟨h1, h2, h3, h4⟩ := upsertFoundryMirror_core (deleteBlock ns b0) pid payload t hpage2
    refine ⟨?_, h2, h3, fun pid2 => (h4 pid2).trans (deleteBlock_any ns b0 pid2)⟩
    rw [heq, h1, pageBlocks_delete, filter_swap]

/-- Replacement keeps the replaced row findable: after an upsert the
mapping row for the key is the upserted row. -/
theorem upsertRows_find (m : SyncMap) (l : List SyncMap)
    (ha : l.any (fun x => x.foundry_id == m.foundry_id) = true) :
    (l.map (fun x => if x.foundry_id == m.foundry_id then m else x)).find?
      (fun x => x.foundry_id == m.foundry_id) = some m := by
  induction l with
  | nil => simp at ha
  | cons a rest ih =>
    by_cases hax : a.foundry_id = m.foundry_id
    · simp [List.find?_cons, hax]
    · simp only [List.any_cons, Bool.or_eq_true] at ha
      rcases ha with h1 | h2
      · exact absurd (beq_iff_eq.mp h1) hax
      · simpa [hax] using ih h2

/-- Appending a fresh row makes it findable when no earlier row matches. -/
theorem upsertRows_append_find (m : SyncMap) (l : List SyncMap)
    (ha : l.any (fun x => x.foundry_id == m.foundry_id) = false) :
    (l ++ [m]).find? (fun x => x.foundry_id == m.foundry_id) = some m := by
  induction l with
  | nil => simp
  | cons a rest ih =>
    by_cases hax : a.foundry_id = m.foundry_id
    · simp [List.any_cons, hax] at ha
    · simp only [List.any_cons, Bool.or_eq_false_iff] at ha
      simpa [hax] using ih ha.2

/-- `getSyncMap` after `upsertSyncMap` returns the upserted row. -/
theorem getSyncMap_upsert (s : StateStore) (m : SyncMap) :
    getSyncMap (upsertSyncMap s m) m.foundry_id = some m := by
  unfold getSyncMap upsertSyncMap
  by_cases ha : s.syncMaps.any (fun x => x.foundry_id == m.foundry_id) = true
  · rw [if_pos ha]
    exact upsertRows_find m s.syncMaps ha
  · rw [if_neg ha]
    exact upsertRows_append_find m s.syncMaps (Bool.eq_false_iff.mpr ha)

/-- Rows all missing the key filter to nothing. -/
theorem syncRows_nil_aux (id : String) (l : List SyncMap)
    (h : ∀ x ∈ l, ¬ (x.foundry_id == id) = true) :
    l.filter (fun x => x.foundry_id == id) = [] := by
  induction l with
  | nil => rfl
  | cons a rest ih =>
    simp only [List.filter_cons]
    rw [if_neg (by simpa using h a (List.mem_cons_self a rest))]
    exact ih (fun x hx => h x (List.mem_cons_of_mem a hx))

/-- A key that `getSyncMap` misses has no matching rows at all. -/
theorem syncRows_nil_of_none (s : StateStore) (id : String)
    (h : getSyncMap s id = none) :
    s.syncMaps.filter (fun x => x.foundry_id == id) = [] := by
  unfold getSyncMap at h
  rw [List.find?_eq_none] at h
  exact syncRows_nil_aux id s.syncMaps h

/-- Upserting under a missing key leaves exactly the upserted row for it. -/
theorem upsert_filter_absent (s : StateStore) (m : SyncMap)
    (h : getSyncMap s m.foundry_id = none) :
    (upsertSyncMap s m).syncMaps.filter (fun x => x.foundry_id == m.foundry_id) = [m] := by
  have hnil := syncRows_nil_of_none s m.foundry_id h
  have ha : ¬ s.syncMaps.any (fun x => x.foundry_id == m.foundry_id) = true := by
    unfold getSyncMap at h
    rw [List.find?_eq_none] at h
    simp only [List.any_eq_true, not_exists]
    intro x hx
    exact absurd hx.2 (by simpa using h x hx.1)
  unfold upsertSyncMap
  rw [if_neg ha]
  show (s.syncMaps ++ [m]).filter (fun x => x.foundry_id == m.foundry_id) = [m]
  rw [List.filter_append, hnil]
  simp

/-- Upserting under a present key keeps the number of rows for it. -/
theorem upsert_filter_present (s : StateStore) (m : SyncMap)
    (ha : s.syncMaps.any (fun x => x.foundry_id == m.foundry_id) = true) :
    ((upsertSyncMap s m).syncMaps.filter (fun x => x.foundry_id == m.foundry_id)).length =
      (s.syncMaps.filter (fun x => x.foundry_id == m.foundry_id)).length := by
  unfold upsertSyncMap
  rw [if_pos ha]
  show ((s.syncMaps.map (fun x => if x.foundry_id == m.foundry_id then m else x)).filter
      (fun x => x.foundry_id == m.foundry_id)).length =
    (s.syncMaps.filter (fun x => x.foundry_id == m.foundry_id)).length
  clear ha
  induction s.syncMaps with
  | nil => rfl
  | cons a rest ih =>
    by_cases hax : a.foundry_id = m.foundry_id
    · simpa [List.filter_cons, hax] using ih
    · simpa [List.filter_cons, hax] using ih

/-- The apply step for an `update` item whose journal carries no media:
the mirror container is upserted against the recorded previous container
and the mapping row is rewritten with the fresh container id and the
target hash of the freshly rendered payload. -/
theorem applyItem_update (nenv : NotionEnv) (fetch : FetchEnv) (cfg : MediaCfg)
    (im : Option Bool) (uuid : String) (t : Int) (j : FoundryJournal) (pid : String)
    (item : JournalPreviewItem) (w : World)
    (him : im ≠ some false)
    (hact : item.action = SyncAction.update)
    (hpid : item.notionPageId = some pid)
    (hjid : item.journalId = j.id)
    (hmedia : j.media = none) :
    applyItem nenv fetch cfg im uuid t [j] item w =
      (Except.ok (some { item with notionPageId := some pid }),
       writeAudit
         { w with
           notion := (upsertFoundryMirror w.notion pid (buildMirrorPayload j [] true t)
             ((getSyncMap w.store j.id).bind (fun m => m.notion_mirror_block_id)) t).1,
           store := upsertSyncMap w.store
             { foundry_type := "journal", foundry_id := j.id, notion_page_id := pid,
               canonical_name := j.name, last_sync_direction := "foundry_to_notion",
               source_hash := item.sourceHash,
               target_hash := sha256 (mirrorPayloadJson (buildMirrorPayload j [] true t)),
               last_synced_at := t,
               notion_mirror_block_id := some (upsertFoundryMirror w.notion pid
                 (buildMirrorPayload j [] true t)
                 ((getSyncMap w.store j.id).bind (fun m => m.notion_mirror_block_id)) t).2 } }
         "journal_synced") := by
  have hfind : [j].find? (fun x => x.id == item.journalId) = some j := by
    simp [List.find?_cons, hjid]
  have hb : (decide (im ≠ some false)) = true := decide_eq_true him
  rcases hup : upsertFoundryMirror w.notion pid (buildMirrorPayload j [] true t)
      ((getSyncMap w.store j.id).bind (fun m => m.notion_mirror_block_id)) t with ⟨ns2, b⟩
  simp only [applyItem, hfind, hact, hpid, hmedia]
  rw [if_pos him]
  simp only [Option.getD_none, copyAll, hb, hup, writeAudit]

/-- A whole `apply` run over one already-matched, media-free, unchanged
journal: it succeeds with a single `update` item and drives the world to
`applySingleWorld`. -/
theorem applyRun_single (fenv : FoundryEnv) (nenv : NotionEnv) (fetch : FetchEnv)
    (cfg : MediaCfg) (uuids : Nat → String) (j : FoundryJournal) (pid : String)
    (t : Int) (w : World)
    (hload : loadJournals fenv (some [j.id]) = [j])
    (hfind : nenv.findPage j.name (j.aliases.getD []) (j.folderPath.getD []) = some pid)
    (hmedia : j.media = none)
    (hmap : ∀ m, getSyncMap w.store j.id = some m → m.source_hash = hashJournal j) :
    applyRun fenv nenv fetch cfg (some [j.id]) none none uuids t w =
      (Except.ok (SyncPreviewResult.mk "apply" [singleUpdateItem j pid]
         (summarize [singleUpdateItem j pid])),
       applySingleWorld j pid (newId "run" (uuids 0)) t w) := by
  have hgm : getSyncMap ({ w with
      store := startRun w.store (newId "run" (uuids 0)) "incremental" t } : World).store j.id =
      getSyncMap w.store j.id := rfl
  have hprev : previewItems nenv [j] ({ w with
      store := startRun w.store (newId "run" (uuids 0)) "incremental" t } : World) =
      ([singleUpdateItem j pid], ({ w with
        store := startRun w.store (newId "run" (uuids 0)) "incremental" t } : World)) := by
    rcases hm : getSyncMap w.store j.id with _ | m
    · simp only [previewItems, findPageW, hfind, getSyncMapW, hgm, hm]
      simp [singleUpdateItem]
    · have hs := hmap m hm
      have hdc : detectConflict m (hashJournal j) (nenv.pageLastEdited pid) = false := by
        simp [detectConflict, hs]
      simp only [previewItems, findPageW, hfind, getSyncMapW, hgm, hm, getPageLastEditedW, hdc]
      simp [singleUpdateItem]
  have happ := applyItem_update nenv fetch cfg none (uuids (0 + 1)) t j pid
    (singleUpdateItem j pid)
    ({ w with store := startRun w.store (newId "run" (uuids 0)) "incremental" t } : World)
    (by simp) rfl rfl rfl hmedia
  have hloop : applyLoop fenv nenv fetch cfg none (fun k => uuids (k + 1)) t [j]
      [singleUpdateItem j pid] 0
      ({ w with store := startRun w.store (newId "run" (uuids 0)) "incremental" t } : World) =
      (Except.ok [singleUpdateItem j pid],
       writeAudit
         { ({ w with store := startRun w.store (newId "run" (uuids 0)) "incremental" t } : World) with
           notion := (upsertFoundryMirror w.notion pid (buildMirrorPayload j [] true t)
             ((getSyncMap w.store j.id).bind (fun m => m.notion_mirror_block_id)) t).1,
           store := upsertSyncMap
             (startRun w.store (newId "run" (uuids 0)) "incremental" t)
             { foundry_type := "journal", foundry_id := j.id, notion_page_id := pid,
               canonical_name := j.name, last_sync_direction := "foundry_to_notion",
               source_hash := hashJournal j,
               target_hash := sha256 (mirrorPayloadJson (buildMirrorPayload j [] true t)),
               last_synced_at := t,
               notion_mirror_block_id := some (upsertFoundryMirror w.notion pid
                 (buildMirrorPayload j [] true t)
                 ((getSyncMap w.store j.id).bind (fun m => m.notion_mirror_block_id)) t).2 } }
         "journal_synced") := by
    have hgm2 : getSyncMap (startRun w.store (newId "run" (uuids 0)) "incremental" t) j.id =
        getSyncMap w.store j.id := rfl
    simp only [applyLoop, happ]
    simp [singleUpdateItem, hgm2]
  have hgm2 : getSyncMap (startRun w.store (newId "run" (uuids 0)) "incremental" t) j.id =
      getSyncMap w.store j.id := rfl
  simp only [applyRun, preview, hload, hprev, Option.getD_none, hloop]
  simp [applySingleWorld, writeAudit, singleUpdateItem, hgm2]

/-- The rendered mirror payload pins down the rendered sync timestamp:
equal payload JSON for the same journal forces equal `Last Synced`
stamps. -/
theorem mirrorPayloadJson_time_inj (j : FoundryJournal) (t1 t2 : Int)
    (h : mirrorPayloadJson (buildMirrorPayload j [] true t1) =
         mirrorPayloadJson (buildMirrorPayload j [] true t2)) :
    isoString t1 = isoString t2 := by
  have hmlq : (jsonQuote "metadataLines").data =
    ['"', 'm', 'e', 't', 'a', 'd', 'a', 't', 'a', 'L', 'i', 'n', 'e', 's', '"'] := by decide
  have hcolon : (":".data) = [':'] := by decide
  have hlb : (lbr : String).data = [lbrChar] := by decide
  have h' := congrArg String.data h
  simp only [mirrorPayloadJson, buildMirrorPayload, String.data_append, hmlq, hcolon, hlb,
    List.cons_append, List.append_assoc, List.nil_append, List.singleton_append,
    List.cons.injEq, true_and] at h'
  obtain ⟨hml, -⟩ := jsonStrArr_cancel h'
  simp only [List.cons.injEq, true_and, and_true] at hml
  have hls : ("Last Synced: ".data) =
    ['L', 'a', 's', 't', ' ', 'S', 'y', 'n', 'c', 'e', 'd', ':', ' '] := by decide
  have h3 := congrArg String.data hml
  simp only [String.data_append, hls, List.cons_append, List.cons.injEq, true_and] at h3
  exact strData_inj h3

/-- Opening a run record does not affect which mapping rows an upsert
produces. -/
theorem upsert_syncMaps_startRun (s : StateStore) (rid mode : String) (t : Int) (m : SyncMap) :
    (upsertSyncMap (startRun s rid mode t) m).syncMaps = (upsertSyncMap s m).syncMaps := by
  unfold upsertSyncMap startRun
  dsimp only
  by_cases hc : s.syncMaps.any (fun x => x.foundry_id == m.foundry_id) = true
  · simp only [if_pos hc]
  · simp only [if_neg hc]

/-- What one happy-path apply run does to the world: the mapping row is
rewritten with the fresh container id, the page's generated regions
become the old ones minus the recorded previous container plus the one
fresh container, the container id is fresh, pages are preserved, and the
mapping relation is exactly an upsert. -/
theorem applySingleWorld_spec (j : FoundryJournal) (pid rid : String) (t : Int) (w : World)
    (hpage : w.notion.pages.any (fun p => p.pageId == pid) = true) :
    getSyncMap (applySingleWorld j pid rid t w).store j.id =
      some (SyncMap.mk "journal" j.id pid j.name "foundry_to_notion" (hashJournal j)
        (sha256 (mirrorPayloadJson (buildMirrorPayload j [] true t))) t
        (some (upsertFoundryMirror w.notion pid (buildMirrorPayload j [] true t)
          ((getSyncMap w.store j.id).bind (fun m => m.notion_mirror_block_id)) t).2)) ∧
    (pageBlocks (applySingleWorld j pid rid t w).notion pid).filter (fun b => b.2.isMirror) =
      ((pageBlocks w.notion pid).filter (fun b => b.2.isMirror)).filter
        (fun b => match (getSyncMap w.store j.id).bind (fun m => m.notion_mirror_block_id) with
          | some b0 => ¬ b.1 == b0
          | none => true)
      ++ [((upsertFoundryMirror w.notion pid (buildMirrorPayload j [] true t)
            ((getSyncMap w.store j.id).bind (fun m => m.notion_mirror_block_id)) t).2,
          NBlock.mirror ("Foundry Mirror (auto) - " ++ isoString t)
            (buildMirrorPayload j [] true t))] ∧
    w.notion.nextBlockId ≤ (upsertFoundryMirror w.notion pid (buildMirrorPayload j [] true t)
      ((getSyncMap w.store j.id).bind (fun m => m.notion_mirror_block_id)) t).2 ∧
    (applySingleWorld j pid rid t w).notion.nextBlockId =
      (upsertFoundryMirror w.notion pid (buildMirrorPayload j [] true t)
        ((getSyncMap w.store j.id).bind (fun m => m.notion_mirror_block_id)) t).2 + 1 ∧
    (∀ pid2, (applySingleWorld j pid rid t w).notion.pages.any (fun p => p.pageId == pid2) =
      w.notion.pages.any (fun p => p.pageId == pid2)) ∧
    (applySingleWorld j pid rid t w).store.syncMaps =
      (upsertSyncMap w.store (SyncMap.mk "journal" j.id pid j.name "foundry_to_notion"
        (hashJournal j) (sha256 (mirrorPayloadJson (buildMirrorPayload j [] true t))) t
        (some (upsertFoundryMirror w.notion pid (buildMirrorPayload j [] true t)
          ((getSyncMap w.store j.id).bind (fun m => m.notion_mirror_block_id)) t).2))).syncMaps := by
  obtain ⟨hs1, hs2, hs3, hs4⟩ := upsertFoundryMirror_spec w.notion pid
    (buildMirrorPayload j [] true t)
    ((getSyncMap w.store j.id).bind (fun m => m.notion_mirror_block_id)) t hpage
  have hsm : (applySingleWorld j pid rid t w).store.syncMaps =
      (upsertSyncMap w.store (SyncMap.mk "journal" j.id pid j.name "foundry_to_notion"
        (hashJournal j) (sha256 (mirrorPayloadJson (buildMirrorPayload j [] true t))) t
        (some (upsertFoundryMirror w.notion pid (buildMirrorPayload j [] true t)
          ((getSyncMap w.store j.id).bind (fun m => m.notion_mirror_block_id)) t).2))).syncMaps := by
    show (upsertSyncMap (startRun w.store rid "incremental" t)
        (SyncMap.mk "journal" j.id pid j.name "foundry_to_notion"
          (hashJournal j) (sha256 (mirrorPayloadJson (buildMirrorPayload j [] true t))) t
          (some (upsertFoundryMirror w.notion pid (buildMirrorPayload j [] true t)
            ((getSyncMap w.store j.id).bind (fun m => m.notion_mirror_block_id)) t).2))).syncMaps =
      _
    exact upsert_syncMaps_startRun w.store rid "incremental" t _
  refine ⟨?_, hs1, hs2, hs3, hs4, hsm⟩
  have hup := getSyncMap_upsert w.store (SyncMap.mk "journal" j.id pid j.name
    "foundry_to_notion" (hashJournal j)
    (sha256 (mirrorPayloadJson (buildMirrorPayload j [] true t))) t
    (some (upsertFoundryMirror w.notion pid (buildMirrorPayload j [] true t)
      ((getSyncMap w.store j.id).bind (fun m => m.notion_mirror_block_id)) t).2))
  calc getSyncMap (applySingleWorld j pid rid t w).store j.id
      = getSyncMap (upsertSyncMap w.store (SyncMap.mk "journal" j.id pid j.name
          "foundry_to_notion" (hashJournal j)
          (sha256 (mirrorPayloadJson (buildMirrorPayload j [] true t))) t
          (some (upsertFoundryMirror w.notion pid (buildMirrorPayload j [] true t)
            ((getSyncMap w.store j.id).bind (fun m => m.notion_mirror_block_id)) t).2))) j.id := by
        unfold getSyncMap
        rw [hsm]
        rfl
    _ = _ := hup

/-- **C2.** Amended apply/idempotence property for one unchanged,
already-matched, media-free journal applied in two successive runs: each
run records the same source fingerprint and exactly one mapping row;
each run leaves exactly one generated region on the page, the second
run's container replacing (not accumulating behind) the first run's
container under a fresh id; the recorded target fingerprints are the
hashes of the rendered payloads, which disagree whenever the rendered
`Last Synced` stamps disagree, unless SHA-256 itself collides.  The
original claim's "same target fingerprint and same region identifier"
is refuted by `claim_C2_counterexample`. -/
theorem claim_C2_apply (fenv : FoundryEnv) (nenv : NotionEnv) (fetch : FetchEnv)
    (cfg : MediaCfg) (uuids1 uuids2 : Nat → String) (j : FoundryJournal) (pid : String)
    (t1 t2 : Int) (w0 w1 w2 : World)
    (hload : loadJournals fenv (some [j.id]) = [j])
    (hfind : nenv.findPage j.name (j.aliases.getD []) (j.folderPath.getD []) = some pid)
    (hmedia : j.media = none)
    (hmap0 : getSyncMap w0.store j.id = none)
    (hpage : w0.notion.pages.any (fun p => p.pageId == pid) = true)
    (hmir0 : (pageBlocks w0.notion pid).filter (fun b => b.2.isMirror) = [])
    (hw1 : w1 = (applyRun fenv nenv fetch cfg (some [j.id]) none none uuids1 t1 w0).2)
    (hw2 : w2 = (applyRun fenv nenv fetch cfg (some [j.id]) none none uuids2 t2 w1).2) :
    ∃ b1 b2 : Nat,
      getSyncMap w1.store j.id =
        some (SyncMap.mk "journal" j.id pid j.name "foundry_to_notion" (hashJournal j)
          (sha256 (mirrorPayloadJson (buildMirrorPayload j [] true t1))) t1 (some b1)) ∧
      getSyncMap w2.store j.id =
        some (SyncMap.mk "journal" j.id pid j.name "foundry_to_notion" (hashJournal j)
          (sha256 (mirrorPayloadJson (buildMirrorPayload j [] true t2))) t2 (some b2)) ∧
      (w1.store.syncMaps.filter (fun x => x.foundry_id == j.id)).length = 1 ∧
      (w2.store.syncMaps.filter (fun x => x.foundry_id == j.id)).length = 1 ∧
      (pageBlocks w1.notion pid).filter (fun b => b.2.isMirror) =
        [(b1, NBlock.mirror ("Foundry Mirror (auto) - " ++ isoString t1) (buildMirrorPayload j [] true t1))] ∧
      (pageBlocks w2.notion pid).filter (fun b => b.2.isMirror) =
        [(b2, NBlock.mirror ("Foundry Mirror (auto) - " ++ isoString t2) (buildMirrorPayload j [] true t2))] ∧
      b1 ≠ b2 ∧
      (isoString t1 ≠ isoString t2 →
        ¬ Sha256Collision (mirrorPayloadJson (buildMirrorPayload j [] true t1)) (mirrorPayloadJson (buildMirrorPayload j [] true t2)) →
        sha256 (mirrorPayloadJson (buildMirrorPayload j [] true t1)) ≠ sha256 (mirrorPayloadJson (buildMirrorPayload j [] true t2))) := by
  have hvac : ∀ m, getSyncMap w0.store j.id = some m → m.source_hash = hashJournal j := by
    intro m hm
    rw [hmap0] at hm
    cases hm
  have heq1 := applyRun_single fenv nenv fetch cfg uuids1 j pid t1 w0 hload hfind hmedia hvac
  have hw1e : w1 = (applySingleWorld j pid (newId "run" (uuids1 0)) t1 w0) := by
    rw [hw1, heq1]
  obtain ⟨ha1, hb1, hc1, hd1, he1, hf1⟩ :=
    applySingleWorld_spec j pid (newId "run" (uuids1 0)) t1 w0 hpage
  have hprev1 : (getSyncMap w0.store j.id).bind (fun m => m.notion_mirror_block_id) =
      (none : Option Nat) := by
    rw [hmap0]
    rfl
  rw [hprev1] at ha1 hb1 hc1 hd1 hf1
  rw [hmir0] at hb1
  simp only [List.filter_nil, List.nil_append] at hb1
  have hsrc2 : ∀ m, getSyncMap (applySingleWorld j pid (newId "run" (uuids1 0)) t1 w0).store j.id = some m → m.source_hash = hashJournal j := by
    intro m hm
    rw [ha1] at hm
    injection hm with h
    rw [← h]
  have hpage1 : (applySingleWorld j pid (newId "run" (uuids1 0)) t1 w0).notion.pages.any (fun p => p.pageId == pid) = true := by
    rw [he1 pid]
    exact hpage
  have heq2 := applyRun_single fenv nenv fetch cfg uuids2 j pid t2 (applySingleWorld j pid (newId "run" (uuids1 0)) t1 w0) hload hfind hmedia hsrc2
  have hw2e : w2 = applySingleWorld j pid (newId "run" (uuids2 0)) t2 (applySingleWorld j pid (newId "run" (uuids1 0)) t1 w0) := by
    rw [hw2, hw1e, heq2]
  obtain ⟨ha2, hb2, hc2, hd2, he2, hf2⟩ :=
    applySingleWorld_spec j pid (newId "run" (uuids2 0)) t2 (applySingleWorld j pid (newId "run" (uuids1 0)) t1 w0) hpage1
  have hprev2 : (getSyncMap (applySingleWorld j pid (newId "run" (uuids1 0)) t1 w0).store j.id).bind (fun m => m.notion_mirror_block_id) =
      some ((upsertFoundryMirror w0.notion pid (buildMirrorPayload j [] true t1) none t1).2) := by
    rw [ha1]
    rfl
  rw [hprev2] at ha2 hb2 hc2 hd2 hf2
  rw [hb1] at hb2
  simp only [List.filter_cons, List.filter_nil, List.nil_append] at hb2
  rw [if_neg (by simp)] at hb2
  have hcnt1 : (w1.store.syncMaps.filter (fun x => x.foundry_id == j.id)).length = 1 := by
    rw [hw1e, hf1]
    rw [show ((upsertSyncMap w0.store (SyncMap.mk "journal" j.id pid j.name "foundry_to_notion" (hashJournal j)
        (sha256 (mirrorPayloadJson (buildMirrorPayload j [] true t1))) t1 (some ((upsertFoundryMirror w0.notion pid (buildMirrorPayload j [] true t1) none t1).2)))).syncMaps.filter
        (fun x => x.foundry_id == j.id)) = [(SyncMap.mk "journal" j.id pid j.name "foundry_to_notion" (hashJournal j)
        (sha256 (mirrorPayloadJson (buildMirrorPayload j [] true t1))) t1 (some ((upsertFoundryMirror w0.notion pid (buildMirrorPayload j [] true t1) none t1).2)))] from
      upsert_filter_absent w0.store (SyncMap.mk "journal" j.id pid j.name "foundry_to_notion" (hashJournal j)
        (sha256 (mirrorPayloadJson (buildMirrorPayload j [] true t1))) t1 (some ((upsertFoundryMirror w0.notion pid (buildMirrorPayload j [] true t1) none t1).2))) hmap0]
    rfl
  have hany1 : (applySingleWorld j pid (newId "run" (uuids1 0)) t1 w0).store.syncMaps.any (fun x => x.foundry_id == j.id) = true := by
    have hfind1 : (applySingleWorld j pid (newId "run" (uuids1 0)) t1 w0).store.syncMaps.find? (fun x => x.foundry_id == j.id) =
        some (SyncMap.mk "journal" j.id pid j.name "foundry_to_notion" (hashJournal j)
        (sha256 (mirrorPayloadJson (buildMirrorPayload j [] true t1))) t1 (some ((upsertFoundryMirror w0.notion pid (buildMirrorPayload j [] true t1) none t1).2))) := ha1
    have hpmem : (SyncMap.mk "journal" j.id pid j.name "foundry_to_notion" (hashJournal j)
        (sha256 (mirrorPayloadJson (buildMirrorPayload j [] true t1))) t1 (some ((upsertFoundryMirror w0.notion pid (buildMirrorPayload j [] true t1) none t1).2))) ∈ (applySingleWorld j pid (newId "run" (uuids1 0)) t1 w0).store.syncMaps :=
      List.mem_of_find?_eq_some hfind1
    have hppred := List.find?_some hfind1
    exact List.any_eq_true.mpr ⟨(SyncMap.mk "journal" j.id pid j.name "foundry_to_notion" (hashJournal j)
        (sha256 (mirrorPayloadJson (buildMirrorPayload j [] true t1))) t1 (some ((upsertFoundryMirror w0.notion pid (buildMirrorPayload j [] true t1) none t1).2))), hpmem, hppred⟩
  have hcnt2 : (w2.store.syncMaps.filter (fun x => x.foundry_id == j.id)).length = 1 := by
    rw [hw2e, hf2]
    rw [show ((upsertSyncMap (applySingleWorld j pid (newId "run" (uuids1 0)) t1 w0).store (SyncMap.mk "journal" j.id pid j.name "foundry_to_notion" (hashJournal j)
        (sha256 (mirrorPayloadJson (buildMirrorPayload j [] true t2))) t2 (some ((upsertFoundryMirror (applySingleWorld j pid (newId "run" (uuids1 0)) t1 w0).notion pid (buildMirrorPayload j [] true t2) (some ((upsertFoundryMirror w0.notion pid (buildMirrorPayload j [] true t1) none t1).2)) t2).2)))).syncMaps.filter
          (fun x => x.foundry_id == j.id)).length =
        ((applySingleWorld j pid (newId "run" (uuids1 0)) t1 w0).store.syncMaps.filter (fun x => x.foundry_id == j.id)).length from
      upsert_filter_present (applySingleWorld j pid (newId "run" (uuids1 0)) t1 w0).store (SyncMap.mk "journal" j.id pid j.name "foundry_to_notion" (hashJournal j)
        (sha256 (mirrorPayloadJson (buildMirrorPayload j [] true t2))) t2 (some ((upsertFoundryMirror (applySingleWorld j pid (newId "run" (uuids1 0)) t1 w0).notion pid (buildMirrorPayload j [] true t2) (some ((upsertFoundryMirror w0.notion pid (buildMirrorPayload j [] true t1) none t1).2)) t2).2))) hany1]
    rw [← hw1e]
    exact hcnt1
  refine ⟨(upsertFoundryMirror w0.notion pid (buildMirrorPayload j [] true t1) none t1).2, (upsertFoundryMirror (applySingleWorld j pid (newId "run" (uuids1 0)) t1 w0).notion pid (buildMirrorPayload j [] true t2) (some ((upsertFoundryMirror w0.notion pid (buildMirrorPayload j [] true t1) none t1).2)) t2).2, ?_, ?_, hcnt1, hcnt2, ?_, ?_, ?_, ?_⟩
  · rw [hw1e]
    exact ha1
  · rw [hw2e]
    exact ha2
  · rw [hw1e]
    exact hb1
  · rw [hw2e]
    exact hb2
  · rw [hd1] at hc2
    exact Nat.ne_of_lt (Nat.lt_of_lt_of_le (Nat.lt_succ_self _) hc2)
  · intro hts hcol heq
    by_cases hj : mirrorPayloadJson (buildMirrorPayload j [] true t1) = mirrorPayloadJson (buildMirrorPayload j [] true t2)
    · exact hts (mirrorPayloadJson_time_inj j t1 t2 hj)
    · exact hcol ⟨hj, heq⟩

set_option maxRecDepth 100000 in
set_option maxHeartbeats 2000000 in
/-- **C2.** Counterexample to the claimed idempotence: applying the same
unchanged journal twice (at run clocks 1000 and 2000) stores a different
target fingerprint and a different generated-region identifier on the
second run, because the payload embeds the wall-clock `Last Synced`
stamp and the destination returns a fresh id for the new container. -/
theorem claim_C2_counterexample :
    (getSyncMap ((applyRun cFenv cNenv cFetch cCfg (some ["J1"]) none none cUuids 1000 cWorld).2).store "J1").map (fun m => m.target_hash) ≠
      (getSyncMap ((applyRun cFenv cNenv cFetch cCfg (some ["J1"]) none none cUuids 2000
        (applyRun cFenv cNenv cFetch cCfg (some ["J1"]) none none cUuids 1000 cWorld).2).2).store "J1").map (fun m => m.target_hash) ∧
    (getSyncMap ((applyRun cFenv cNenv cFetch cCfg (some ["J1"]) none none cUuids 1000 cWorld).2).store "J1").bind (fun m => m.notion_mirror_block_id) ≠
      (getSyncMap ((applyRun cFenv cNenv cFetch cCfg (some ["J1"]) none none cUuids 2000
        (applyRun cFenv cNenv cFetch cCfg (some ["J1"]) none none cUuids 1000 cWorld).2).2).store "J1").bind (fun m => m.notion_mirror_block_id) := by
  constructor
  · decide
  · decide

/-- **C2.** Witness: the amended apply theorem applied to the fixture
journal on fixture environments, both hypotheses evaluated concretely. -/
theorem claim_C2_apply_witness :
    ∃ b1 b2 : Nat,
      getSyncMap ((applyRun cFenv cNenv cFetch cCfg (some [journalFixture.id]) none none cUuids 1000
      cWorld).2).store journalFixture.id =
        some (SyncMap.mk "journal" journalFixture.id "P1" journalFixture.name
          "foundry_to_notion" (hashJournal journalFixture)
          (sha256 (mirrorPayloadJson (buildMirrorPayload journalFixture [] true 1000))) 1000 (some b1)) ∧
      getSyncMap ((applyRun cFenv cNenv cFetch cCfg (some [journalFixture.id]) none none cUuids 2000
      ((applyRun cFenv cNenv cFetch cCfg (some [journalFixture.id]) none none cUuids 1000
      cWorld).2)).2).store journalFixture.id =
        some (SyncMap.mk "journal" journalFixture.id "P1" journalFixture.name
          "foundry_to_notion" (hashJournal journalFixture)
          (sha256 (mirrorPayloadJson (buildMirrorPayload journalFixture [] true 2000))) 2000 (some b2)) ∧
      (((applyRun cFenv cNenv cFetch cCfg (some [journalFixture.id]) none none cUuids 1000
      cWorld).2).store.syncMaps.filter
        (fun x => x.foundry_id == journalFixture.id)).length = 1 ∧
      (((applyRun cFenv cNenv cFetch cCfg (some [journalFixture.id]) none none cUuids 2000
      ((applyRun cFenv cNenv cFetch cCfg (some [journalFixture.id]) none none cUuids 1000
      cWorld).2)).2).store.syncMaps.filter
        (fun x => x.foundry_id == journalFixture.id)).length = 1 ∧
      (pageBlocks ((applyRun cFenv cNenv cFetch cCfg (some [journalFixture.id]) none none cUuids 1000
      cWorld).2).notion "P1").filter (fun b => b.2.isMirror) =
        [(b1, NBlock.mirror ("Foundry Mirror (auto) - " ++ isoString 1000) (buildMirrorPayload journalFixture [] true 1000))] ∧
      (pageBlocks ((applyRun cFenv cNenv cFetch cCfg (some [journalFixture.id]) none none cUuids 2000
      ((applyRun cFenv cNenv cFetch cCfg (some [journalFixture.id]) none none cUuids 1000
      cWorld).2)).2).notion "P1").filter (fun b => b.2.isMirror) =
        [(b2, NBlock.mirror ("Foundry Mirror (auto) - " ++ isoString 2000) (buildMirrorPayload journalFixture [] true 2000))] ∧
      b1 ≠ b2 ∧
      (isoString 1000 ≠ isoString 2000 →
        ¬ Sha256Collision (mirrorPayloadJson (buildMirrorPayload journalFixture [] true 1000)) (mirrorPayloadJson (buildMirrorPayload journalFixture [] true 2000)) →
        sha256 (mirrorPayloadJson (buildMirrorPayload journalFixture [] true 1000)) ≠ sha256 (mirrorPayloadJson (buildMirrorPayload journalFixture [] true 2000))) :=
  claim_C2_apply cFenv cNenv cFetch cCfg cUuids cUuids journalFixture "P1" 1000 2000
    cWorld ((applyRun cFenv cNenv cFetch cCfg (some [journalFixture.id]) none none cUuids 1000
      cWorld).2) ((applyRun cFenv cNenv cFetch cCfg (some [journalFixture.id]) none none cUuids 2000
      ((applyRun cFenv cNenv cFetch cCfg (some [journalFixture.id]) none none cUuids 1000
      cWorld).2)).2)
    (by decide) rfl rfl (by decide) (by decide) rfl rfl rfl
